import Mathlib

/-!
# Verification of `extract_data.py`

A shallow embedding of the GitHub-metadata statistics extractor
(`src/extract_data.py`) together with proofs about the claims of its
specification.

Conventions of the embedding:

* Python floats are modelled as exact rationals (`ℚ`); machine timestamps are
  modelled as exact epoch seconds (`ℕ`).
* JSON fields that may be absent (or `null`) are modelled as `Option`.
* Code that can raise an uncaught exception is modelled in `Except String`;
  `.error` corresponds to the Python process aborting.
* Dictionaries built by `defaultdict` accumulation are modelled by their
  extensional content: counters become `countP` over the flat list of
  contributions, sets become `toFinset` images, and the key set of a
  `defaultdict` is the set of keys ever accessed.
-/

namespace ExtractData

/-- Banker's rounding (round half to even) of a rational to an integer.
Models the tie-breaking behaviour of Python's builtin `round`. -/
def roundHalfEven (q : ℚ) : ℤ :=
  let f := ⌊q⌋
  if q - f < 1/2 then f
  else if 1/2 < q - f then f + 1
  else if f % 2 = 0 then f else f + 1

/-- Python `round(x, 1)`: round to one decimal digit. -/
def round1 (q : ℚ) : ℚ := (roundHalfEven (10 * q) : ℚ) / 10

/-! ## Timestamps

`datetime.fromisoformat` and timestamp subtraction are modelled by parsing
ISO-8601 strings into a calendar record `DT` and converting it to epoch
seconds with the standard civil-calendar algorithm. The epoch used here is
0000-03-01 rather than 1970-01-01; the script only ever uses *differences*
of timestamps, which do not depend on the epoch offset. -/

/-- A parsed timestamp (what `datetime.fromisoformat` produces; the data is
always UTC so no offset is stored). -/
structure DT where
  year : ℕ
  month : ℕ
  day : ℕ
  hour : ℕ
  minute : ℕ
  second : ℕ
deriving DecidableEq

/-- Gregorian leap-year rule. -/
def isLeap (y : ℕ) : Bool := y % 4 == 0 && (y % 100 != 0 || y % 400 == 0)

/-- Number of days in a month (used to validate `day` as `fromisoformat` does). -/
def daysInMonth (y m : ℕ) : ℕ :=
  if m = 2 then (if isLeap y then 29 else 28)
  else if m = 4 ∨ m = 6 ∨ m = 9 ∨ m = 11 then 30
  else 31

/-- Days since 0000-03-01 of a civil date (standard days-from-civil
algorithm, offset-free variant). Valid for years 1..9999. -/
def epochDays (y m d : ℕ) : ℕ :=
  let y2 := if m ≤ 2 then y - 1 else y
  let era := y2 / 400
  let yoe := y2 % 400
  let mp := if m ≤ 2 then m + 9 else m - 3
  let doy := (153 * mp + 2) / 5 + (d - 1)
  let doe := yoe * 365 + yoe / 4 - yoe / 100 + doy
  era * 146097 + doe

/-- Epoch seconds of a timestamp (epoch 0000-03-01; see module docstring). -/
def epochSecs (t : DT) : ℕ :=
  epochDays t.year t.month t.day * 86400 + t.hour * 3600 + t.minute * 60 + t.second

/-- `(b - a).total_seconds() / 86400`: elapsed days between two timestamps. -/
def daysBetween (a b : DT) : ℚ := ((epochSecs b : ℚ) - (epochSecs a : ℚ)) / 86400

/-- The value of an ASCII digit character (`fromisoformat` accepts exactly
these in the fields it parses). -/
def digitVal (c : Char) : Option ℕ :=
  if c = '0' then some 0
  else if c = '1' then some 1
  else if c = '2' then some 2
  else if c = '3' then some 3
  else if c = '4' then some 4
  else if c = '5' then some 5
  else if c = '6' then some 6
  else if c = '7' then some 7
  else if c = '8' then some 8
  else if c = '9' then some 9
  else none

def num2 (a b : Char) : Option ℕ :=
  match digitVal a, digitVal b with
  | some x, some y => some (10 * x + y)
  | _, _ => none

def num4 (a b c d : Char) : Option ℕ :=
  match num2 a b, num2 c d with
  | some x, some y => some (100 * x + y)
  | _, _ => none

/-- Python `s.replace("Z", "+00:00")` — the pattern is a single character, so
this is a per-character substitution. -/
def normZ (s : String) : String :=
  ⟨s.data.flatMap (fun c => if c = 'Z' then "+00:00".data else [c])⟩

/-- Parse the time-of-day part of an ISO timestamp: `HH:MM`, `HH:MM:SS`,
each optionally followed by the `+00:00` UTC offset that `normZ` introduces. -/
def parseHMS : List Char → Option (ℕ × ℕ × ℕ)
  | [h1, h2, ':', m1, m2] =>
      match num2 h1 h2, num2 m1 m2 with
      | some h, some mi => some (h, mi, 0)
      | _, _ => none
  | [h1, h2, ':', m1, m2, '+', '0', '0', ':', '0', '0'] =>
      match num2 h1 h2, num2 m1 m2 with
      | some h, some mi => some (h, mi, 0)
      | _, _ => none
  | [h1, h2, ':', m1, m2, ':', s1, s2] =>
      match num2 h1 h2, num2 m1 m2, num2 s1 s2 with
      | some h, some mi, some se => some (h, mi, se)
      | _, _, _ => none
  | [h1, h2, ':', m1, m2, ':', s1, s2, '+', '0', '0', ':', '0', '0'] =>
      match num2 h1 h2, num2 m1 m2, num2 s1 s2 with
      | some h, some mi, some se => some (h, mi, se)
      | _, _, _ => none
  | _ => none

/-- Modelled from Python `datetime.fromisoformat` (as called by the script,
which first rewrites a trailing `"Z"` to `"+00:00"`), restricted to the
timestamp shapes occurring in the GitHub backup data: `YYYY-MM-DD`,
optionally followed by a one-character separator, `HH:MM[:SS]` and an
optional `+00:00` UTC offset. Returns `none` where `fromisoformat` would
raise `ValueError` (bad shape, year 0000, month/day/time out of range). -/
def isoParse (s : String) : Option DT :=
  match (normZ s).data with
  | y1 :: y2 :: y3 :: y4 :: '-' :: m1 :: m2 :: '-' :: d1 :: d2 :: rest =>
    match num4 y1 y2 y3 y4, num2 m1 m2, num2 d1 d2 with
    | some y, some mo, some d =>
      if 1 ≤ y ∧ 1 ≤ mo ∧ mo ≤ 12 ∧ 1 ≤ d ∧ d ≤ daysInMonth y mo then
        match rest with
        | [] => some (DT.mk y mo d 0 0 0)
        | _sep :: tchars =>
          match parseHMS tchars with
          | some (h, mi, se) =>
            if h ≤ 23 ∧ mi ≤ 59 ∧ se ≤ 59 then some (DT.mk y mo d h mi se) else none
          | none => none
      else none
    | _, _, _ => none
  | _ => none

/-! ## Period keys (`period_keys`, lines 38-48) -/

/-- The three timeframes of the output. -/
inductive TF
  | year
  | quarter
  | month
deriving DecidableEq

/-- The dict returned by `period_keys`: one period key per timeframe. -/
structure Keys where
  year : String
  quarter : String
  month : String
deriving DecidableEq

def Keys.get (k : Keys) : TF → String
  | .year => k.year
  | .quarter => k.quarter
  | .month => k.month

/-- Python `f"{month:02d}"`. -/
def pad2 (n : ℕ) : String := if n < 10 then "0" ++ toString n else toString n

/-- `period_keys` applied to an already-parsed timestamp:
year `f"{year}"`, quarter `f"{year}-Q{(month-1)//3+1}"`, month
`f"{year}-{month:02d}"`. -/
def keysOfDT (t : DT) : Keys :=
  { year := toString t.year
    quarter := toString t.year ++ "-Q" ++ toString ((t.month - 1) / 3 + 1)
    month := toString t.year ++ "-" ++ pad2 t.month }

/-- `period_keys(iso_date)` (lines 38-48). `none` models the `ValueError`
raised by `datetime.fromisoformat` on an unparseable string. -/
def periodKeys (d : String) : Option Keys := (isoParse d).map keysOfDT

/-! ## Identity resolver (`map_username`, lines 29-35) -/

/-- The username rename table (a Python dict `old -> new`), as an
association list. -/
abbrev UserMap := List (String × String)

/-- Python `login in USERNAME_MAP` / `USERNAME_MAP[login]`. -/
def lookupU (m : UserMap) (k : String) : Option String :=
  match m with
  | [] => none
  | (a, b) :: rest => if k = a then some b else lookupU rest k

/-- The chain-following `while` loop of `map_username` (lines 31-35), with
explicit fuel; one recursive call is one loop iteration. The loop body runs
only while `login in USERNAME_MAP and login not in seen`. -/
def resolveGo (m : UserMap) : ℕ → List String → String → String
  | 0, _, login => login
  | fuel + 1, seen, login =>
    match lookupU m login with
    | none => login
    | some nxt => if login ∈ seen then login else resolveGo m fuel (login :: seen) nxt

/-- `map_username(login)` (lines 29-35). The Python loop carries no fuel;
`resolveGo_fuel_ge` below proves that `m.length + 1` iterations always
suffice, so this definition computes the loop's true result. -/
def mapUsername (m : UserMap) (login : String) : String :=
  resolveGo m (m.length + 1) [] login

/-! ## String comparison

Python compares strings lexicographically by code point; this is the order
of the underlying character lists, used throughout (`strLe`/`strLt`). -/

/-- Python string `<=`: lexicographic on the character sequences. -/
def strLe (a b : String) : Prop := a.data ≤ b.data

/-- Python string `<`. -/
def strLt (a b : String) : Prop := a.data < b.data

instance : DecidableRel strLe := fun a b => inferInstanceAs (Decidable (a.data ≤ b.data))

instance : DecidableRel strLt := fun a b => inferInstanceAs (Decidable (a.data < b.data))

instance : IsTotal String strLe := ⟨fun a b => le_total a.data b.data⟩

instance : IsTrans String strLe := ⟨fun _ _ _ h h' => le_trans h h'⟩

instance : IsAntisymm String strLe :=
  ⟨fun a b h h' => by cases a; cases b; exact congrArg String.mk (le_antisymm h h')⟩

instance : IsRefl String strLe := ⟨fun a => le_refl a.data⟩

/-! ## Input records

A present `user` / `actor` / `author` / `committer` JSON object is modelled
by the string it is dereferenced to (`login`, resp. `date`); an absent or
`null` field is `none`. -/

/-- One timeline event (an element of `data["events"]`). -/
structure Event where
  etype : String                         -- ev["event"]
  user : Option String := none           -- ev["user"]["login"]
  actor : Option String := none          -- ev["actor"]["login"]
  commitAuthor : Option String := none   -- ev["author"]["login"]   (committed events)
  created_at : Option String := none     -- ev["created_at"]
  submitted_at : Option String := none   -- ev["submitted_at"]
  committerDate : Option String := none  -- ev["committer"]["date"] (committed events)
deriving DecidableEq

/-- One standalone review comment (an element of `data["comments"]`). -/
structure RawComment where
  user : Option String := none
  created_at : Option String := none
deriving DecidableEq

/-- The `pull` object of a PR file. `user.login`, `created_at` and `number`
are accessed with `[]` (the data always has them); `additions`, `deletions`,
`commits` go through `.get(..., 0) or 0`, collapsing absent/null/0 to 0. -/
structure Pull where
  number : ℕ
  author : String                        -- pull["user"]["login"]
  created_at : String
  labels : List String := []             -- label names; "" models a missing name
  additions : ℕ := 0
  deletions : ℕ := 0
  commits : ℕ := 0
deriving DecidableEq

/-- One PR backup file. -/
structure PRData where
  pull : Pull
  events : List Event := []
  comments : List RawComment := []
deriving DecidableEq

/-- One issue backup file (`issue = data.get("issue", data)`). -/
structure IssueData where
  created_at : Option String := none     -- issue.get("created_at", ""); none ↦ ""
  labels : List String := []
  events : List Event := []
deriving DecidableEq

/-- `_SKIP_ACTIVITY_EVENTS` (lines 17-20). -/
def skipActivityEvents : List String :=
  ["subscribed", "mentioned", "referenced", "cross-referenced", "locked", "unlocked"]

/-- `_IGNORE_USERS` (line 23). -/
def ignoreUsers : List String := ["DrahtBot"]

/-! ## `collect_comments` (lines 51-82)

Each `out[tf][period][login] += 1` of the Python code is one element of the
contribution list produced here; the per-(timeframe, period, user) counter is
recovered by counting. `.ok none` is a silently skipped event, `.error` marks
a raised exception (`period_keys` on a malformed ≥10-character date). -/

/-- `date = ev.get("created_at") or ev.get("submitted_at", "")` (line 63). -/
def commentDate (ev : Event) : String :=
  match ev.created_at with
  | some d => if d = "" then ev.submitted_at.getD "" else d
  | none => ev.submitted_at.getD ""

/-- The contribution of one timeline event in `collect_comments` (lines 53-68). -/
def commentEvContrib (m : UserMap) (ev : Event) : Except String (Option (Keys × String)) :=
  if ¬(ev.etype = "commented" ∨ ev.etype = "reviewed") then .ok none
  else match ev.user with
  | none => .ok none
  | some u =>
    let login := mapUsername m u
    if login ∈ ignoreUsers then .ok none
    else
      let date := commentDate ev
      if date.length < 10 then .ok none
      else match periodKeys date with
        | none => .error "ValueError"
        | some k => .ok (some (k, login))

/-- The contribution of one standalone review comment in `collect_comments`
(lines 70-82). -/
def commentRcContrib (m : UserMap) (c : RawComment) : Except String (Option (Keys × String)) :=
  match c.user with
  | none => .ok none
  | some u =>
    let login := mapUsername m u
    if login ∈ ignoreUsers then .ok none
    else
      let date := c.created_at.getD ""
      if date.length < 10 then .ok none
      else match periodKeys date with
        | none => .error "ValueError"
        | some k => .ok (some (k, login))

/-- Run a per-element contribution function over a list, keeping the
contributions in order and propagating the first raised exception. -/
def collectList {α β : Type} (f : α → Except String (Option β)) :
    List α → Except String (List β)
  | [] => .ok []
  | a :: rest => do
    let c ← f a
    let cs ← collectList f rest
    match c with
    | none => pure cs
    | some b => pure (b :: cs)

/-! ## Terminal-outcome scan (lines 246-252) -/

/-- The terminal-outcome scan over a PR's event list (lines 246-252):
`merge_event = ev` overwrites on **every** `"merged"` event, while the
`elif ... and close_event is None` keeps only the **first** `"closed"`
event. Returns `(merge_event, close_event)`. -/
def prOutcome (events : List Event) : Option Event × Option Event :=
  events.foldl
    (fun acc ev =>
      if ev.etype = "merged" then (some ev, acc.2)
      else if ev.etype = "closed" ∧ acc.2 = none then (acc.1, some ev)
      else acc)
    (none, none)

/-! ## Engagement scan: `first_response_ts` (lines 279-341)

Only the parts of the engagement loop feeding `first_response_days` are
modelled (participants, comment counters, the daily-activity heatmap and the
gap statistic are consumed by no claim). -/

/-- Resolve the acting user of an event (lines 291-298): committed events
read `ev["author"]["login"]`, all others `ev["user"]` falling back to
`ev["actor"]`; the result goes through `map_username`. -/
def evUserOf (m : UserMap) (ev : Event) : Option String :=
  let raw := if ev.etype = "committed" then ev.commitAuthor
             else match ev.user with
               | some u => some u
               | none => ev.actor
  raw.map (mapUsername m)

/-- The timestamp string used for an event (lines 304-306): committed events
read `ev["committer"]["date"]`, all others `ev["created_at"]`; absent/null
becomes `""`. -/
def evDateStr (ev : Event) : String :=
  if ev.etype = "committed" then ev.committerDate.getD ""
  else ev.created_at.getD ""

/-- The date of an event that can update `first_response_ts`
(lines 286-318): the event is not in `_SKIP_ACTIVITY_EVENTS`, its resolved
user exists, is not an ignored bot, is non-empty and differs from the PR
author, and its date string is usable (non-empty with ≥ 10 characters).
Note that nothing requires the timestamp to lie after the PR's creation. -/
def firstRespCandidate (m : UserMap) (author : String) (ev : Event) : Option String :=
  if ev.etype ∈ skipActivityEvents then none
  else match evUserOf m ev with
    | none => none
    | some l =>
      if l ∈ ignoreUsers then none
      else if l ≠ "" ∧ l ≠ author then
        let d := evDateStr ev
        if d ≠ "" ∧ 10 ≤ d.length then some d else none
      else none

/-- The fold computing `first_response_ts` (lines 316-318): keep the string-
smallest candidate date seen so far. -/
def firstResponseTs (m : UserMap) (author : String) (events : List Event) : Option String :=
  events.foldl
    (fun acc ev =>
      match firstRespCandidate m author ev with
      | none => acc
      | some d => match acc with
        | none => some d
        | some cur => if strLt d cur then some d else some cur)
    none

/-- `first_response_days` (lines 336-341): elapsed days between the PR's
creation and `first_response_ts`, rounded to one decimal. -/
def firstResponseDaysE (m : UserMap) (author createdDate : String) (events : List Event) :
    Except String (Option ℚ) :=
  match firstResponseTs m author events with
  | none => .ok none
  | some ts =>
    match isoParse createdDate, isoParse ts with
    | some c, some r => .ok (some (round1 (daysBetween c r)))
    | _, _ => .error "ValueError"

/-! ## Review-age events (lines 354-386) -/

/-- One element of `review_age_events` plus the period keys of its date.
The Python tuple stores `(ts, age_days)` where
`age_days = (ev_dt - created_dt).total_seconds() / 86400`; we store the two
parsed epoch-second values instead, from which `ageDaysOf` recovers
`age_days` exactly. `keys` carries `period_keys(ts)`, which lines 370/384
compute at collection time and line 550 recomputes from the stored string. -/
structure AgeEv where
  ts : String
  evSecs : ℕ
  createdSecs : ℕ
  keys : Keys
deriving DecidableEq

/-- `age_days` of a collected review-age event. -/
def ageDaysOf (e : AgeEv) : ℚ := ((e.evSecs : ℚ) - (e.createdSecs : ℚ)) / 86400

/-- The contribution of one timeline event to `review_age_events`
(lines 356-372): `"reviewed"`/`"commented"` events whose user (read from
`ev["user"]` only — no `actor` fallback here) is neither an ignored bot nor
the PR author (an absent user passes both tests), with a usable timestamp. -/
def reviewAgeEvContrib (m : UserMap) (author : String) (createdDT : DT) (ev : Event) :
    Except String (Option AgeEv) :=
  if ¬(ev.etype = "reviewed" ∨ ev.etype = "commented") then .ok none
  else
    let l := ev.user.map (mapUsername m)
    let bad : Bool := match l with | some u => decide (u ∈ ignoreUsers) | none => false
    if bad ∨ l = some author then .ok none
    else
      let ts := ev.created_at.getD ""
      if ts ≠ "" ∧ 10 ≤ ts.length then
        match isoParse ts with
        | none => .error "ValueError"
        | some t => .ok (some (AgeEv.mk ts (epochSecs t) (epochSecs createdDT) (keysOfDT t)))
      else .ok none

/-- The contribution of one standalone review comment to `review_age_events`
(lines 373-386). -/
def reviewAgeRcContrib (m : UserMap) (author : String) (createdDT : DT) (c : RawComment) :
    Except String (Option AgeEv) :=
  let l := c.user.map (mapUsername m)
  let bad : Bool := match l with | some u => decide (u ∈ ignoreUsers) | none => false
  if bad ∨ l = some author then .ok none
  else
    let ts := c.created_at.getD ""
    if ts ≠ "" ∧ 10 ≤ ts.length then
      match isoParse ts with
      | none => .error "ValueError"
      | some t => .ok (some (AgeEv.mk ts (epochSecs t) (epochSecs createdDT) (keysOfDT t)))
    else .ok none

/-! ## Per-PR processing (lines 216-403) -/

/-- One element of `merged_prs`
(`(merge_date, created_date, author, keys, additions, deletions, num_commits)`,
line 256). `mergeSecs`/`createdSecs` additionally carry the parse results of
the two date strings: lines 464-466 recompute them from the strings, and
`period_keys`/`fromisoformat` are deterministic, so carrying them is sound. -/
structure MergedRec where
  merge_date : String
  created_date : String
  author : String
  keys : Keys
  additions : ℕ
  deletions : ℕ
  commits : ℕ
  mergeSecs : ℕ
  createdSecs : ℕ
deriving DecidableEq

/-- One element of `closed_prs` (`(close_date, author, keys)`, line 264). -/
structure ClosedRec where
  close_date : String
  author : String
  keys : Keys
deriving DecidableEq

/-- One element of `all_prs` (`(created_date, author, keys)`, line 233). -/
structure AllRec where
  created_date : String
  author : String
  keys : Keys
deriving DecidableEq

/-- One element of `merge_actors` (`(merge_date, merger)`, line 260). `keys`
carries `period_keys(merge_date)` (computed at line 255, recomputed from the
string at line 524). -/
structure ActorRec where
  merge_date : String
  keys : Keys
  actor : String
deriving DecidableEq

/-- The outcome branch of the per-PR loop (lines 253-264): if the scan found
a merged event, record a merged PR (with the merge actor if a non-empty
login is present); otherwise, if it found a closed event, record a
closed-without-merge PR. -/
def outcomeRecs (m : UserMap) (author : String) (createdDate : String) (createdDT : DT)
    (adds dels cms : ℕ) (events : List Event) :
    Except String (Option MergedRec × Option ClosedRec × Option ActorRec) :=
  match (prOutcome events).1 with
  | some ev => do
    let mergeDate ← match ev.created_at with
      | none => .error "KeyError"     -- line 254: merge_event["created_at"]
      | some d => pure d
    let mergeDT ← match isoParse mergeDate with
      | none => .error "ValueError"   -- line 255: period_keys(merge_date)
      | some t => pure t
    let keys := keysOfDT mergeDT
    let rec0 : MergedRec :=
      MergedRec.mk mergeDate createdDate author keys adds dels cms
        (epochSecs mergeDT) (epochSecs createdDT)
    let actorRec : Option ActorRec := match ev.actor with
      | some a => if a ≠ "" then some (ActorRec.mk mergeDate keys (mapUsername m a)) else none
      | none => none
    pure (some rec0, none, actorRec)
  | none =>
    match (prOutcome events).2 with
    | some ev => do
      let closeDate ← match ev.created_at with
        | none => .error "KeyError"   -- line 262: close_event["created_at"]
        | some d => pure d
      let closeKeys ← match periodKeys closeDate with
        | none => .error "ValueError" -- line 263
        | some k => pure k
      pure (none, some (ClosedRec.mk closeDate author closeKeys), none)
    | none => pure (none, none, none)

/-- The per-PR facts consumed by the statistics under verification. -/
structure PRResult where
  commentContribs : List (Keys × String)
  allRec : AllRec
  labelContribs : List (Keys × String)
  merged : Option MergedRec
  closed : Option ClosedRec
  mergeActor : Option ActorRec
  firstResponseDays : Option ℚ
  ageEvents : List AgeEv
deriving DecidableEq

/-- Processing of one PR file (lines 216-403), restricted to the facts the
claims consume (the `pr_activity` heatmap, participant, comments-received,
author-updates and gap fields are modelled only through
`firstResponseDays`). `.error` models an uncaught Python exception aborting
the run. -/
def processPR (m : UserMap) (pr : PRData) : Except String PRResult := do
  -- line 227: collect_comments(events, comments, comment_counts)
  let evContribs ← collectList (commentEvContrib m) pr.events
  let rcContribs ← collectList (commentRcContrib m) pr.comments
  -- lines 230-233: author, created_date, created_keys, all_prs.append
  let author := mapUsername m pr.pull.author
  let createdDT ← match isoParse pr.pull.created_at with
    | none => .error "ValueError"   -- line 232: unguarded parse of pull["created_at"]
    | some t => pure t
  let createdKeys := keysOfDT createdDT
  let allRec : AllRec := AllRec.mk pr.pull.created_at author createdKeys
  -- lines 236-240: labels, bucketed by creation date
  let labelContribs := (pr.pull.labels.filter (fun l => l ≠ "")).map (fun l => (createdKeys, l))
  -- lines 246-264: terminal outcome
  let mergedTriple ← outcomeRecs m author pr.pull.created_at createdDT
    pr.pull.additions pr.pull.deletions pr.pull.commits pr.events
  -- lines 279-341: engagement scan and first_response_days
  let frd ← firstResponseDaysE m author pr.pull.created_at pr.events
  -- lines 354-386: review-age events (events first, then standalone comments)
  let ageEvs ← collectList (reviewAgeEvContrib m author createdDT) pr.events
  let ageRcs ← collectList (reviewAgeRcContrib m author createdDT) pr.comments
  pure (PRResult.mk (evContribs ++ rcContribs) allRec labelContribs
    mergedTriple.1 mergedTriple.2.1 mergedTriple.2.2 frd (ageEvs ++ ageRcs))

/-- Processing of one issue file (lines 412-431): label contributions
(guarded by a ≥10-character creation date, lines 421-428) and comment
contributions from the event timeline. -/
def processIssue (m : UserMap) (iss : IssueData) :
    Except String (List (Keys × String) × List (Keys × String)) := do
  let created := iss.created_at.getD ""
  let labelContribs ←
    if created ≠ "" ∧ 10 ≤ created.length then
      match periodKeys created with
      | none => .error "ValueError"
      | some k => pure ((iss.labels.filter (fun l => l ≠ "")).map (fun l => (k, l)))
    else pure ([] : List (Keys × String))
  let commentContribs ← collectList (commentEvContrib m) iss.events
  pure (labelContribs, commentContribs)

/-- Everything accumulated by the ingestion passes (the module-level lists of
lines 171-211), before the per-timeframe statistics are computed.
`reviewsReceived` pairs each review-age event's period keys with the PR
author, exactly as lines 370-372/384-386 increment
`reviews_received[tf][period][author]`. -/
structure Phase1 where
  mergedPRs : List MergedRec := []
  closedPRs : List ClosedRec := []
  allPRs : List AllRec := []
  mergeActors : List ActorRec := []
  commentContribs : List (Keys × String) := []
  labelPR : List (Keys × String) := []
  labelIssue : List (Keys × String) := []
  ageEvents : List AgeEv := []
  reviewsReceived : List (Keys × String) := []
deriving DecidableEq

/-- Fold one PR's results into the accumulated state (appending, preserving
file order). -/
def addPR (ph : Phase1) (author : String) (r : PRResult) : Phase1 :=
  { ph with
    mergedPRs := ph.mergedPRs ++ r.merged.toList
    closedPRs := ph.closedPRs ++ r.closed.toList
    allPRs := ph.allPRs ++ [r.allRec]
    mergeActors := ph.mergeActors ++ r.mergeActor.toList
    commentContribs := ph.commentContribs ++ r.commentContribs
    labelPR := ph.labelPR ++ r.labelContribs
    ageEvents := ph.ageEvents ++ r.ageEvents
    reviewsReceived := ph.reviewsReceived ++ r.ageEvents.map (fun e => (e.keys, author)) }

def extractPRs (m : UserMap) : List PRData → Phase1 → Except String Phase1
  | [], ph => .ok ph
  | pr :: rest, ph => do
    let r ← processPR m pr
    extractPRs m rest (addPR ph (mapUsername m pr.pull.author) r)

def extractIssues (m : UserMap) : List IssueData → Phase1 → Except String Phase1
  | [], ph => .ok ph
  | iss :: rest, ph => do
    let (lbl, cmt) ← processIssue m iss
    extractIssues m rest
      { ph with
        labelIssue := ph.labelIssue ++ lbl
        commentContribs := ph.commentContribs ++ cmt }

/-- The whole ingestion phase (the two reading loops, lines 213-431): PRs in
file order, then issues. -/
def extractPhase1 (m : UserMap) (prs : List PRData) (issues : List IssueData) :
    Except String Phase1 := do
  let ph ← extractPRs m prs {}
  extractIssues m issues ph

/-! ## Global facts (lines 434-443) -/

/-- The comparison used by `merged_prs.sort(key=lambda x: x[0])` (line 434). -/
def mergeDateLe (a b : MergedRec) : Prop := strLe a.merge_date b.merge_date

instance : DecidableRel mergeDateLe :=
  fun a b => inferInstanceAs (Decidable (strLe a.merge_date b.merge_date))

instance : IsTotal MergedRec mergeDateLe :=
  ⟨fun a b => le_total a.merge_date.data b.merge_date.data⟩

instance : IsTrans MergedRec mergeDateLe :=
  ⟨fun _ _ _ h h' => le_trans h h'⟩

/-- `merged_prs` after the in-place stable sort by merge date (line 434).
Python's list sort is stable; a stable sort of a list is unique, so the
(stable) insertion sort denotes it. -/
def mergedSorted (ph : Phase1) : List MergedRec :=
  List.insertionSort mergeDateLe ph.mergedPRs

/-- One entry of `author_first_merge` (line 440: `author -> iso_date`).
`keys` carries `period_keys(date)` from the merged-PR record (line 502
recomputes it from the stored string). -/
structure FirstEntry where
  author : String
  date : String
  keys : Keys
deriving DecidableEq

/-- The loop of lines 441-443: keep the first record per author, in
insertion order, over the date-sorted merged list. -/
def authorFirstMergeAux : List MergedRec → List FirstEntry → List FirstEntry
  | [], acc => acc
  | r :: rest, acc =>
    if acc.any (fun e => e.author = r.author) then authorFirstMergeAux rest acc
    else authorFirstMergeAux rest (acc ++ [FirstEntry.mk r.author r.merge_date r.keys])

/-- `author_first_merge` (lines 439-443). -/
def authorFirstMerge (ph : Phase1) : List FirstEntry := authorFirstMergeAux (mergedSorted ph) []

/-- `all_maintainers` (line 437): every handle that ever performed a merge. -/
def allMaintainers (ph : Phase1) : Finset String := (ph.mergeActors.map (·.actor)).toFinset

/-! ## Per-timeframe per-period statistics (lines 445-624)

Each `defaultdict` built by the per-timeframe loops is denoted
extensionally (see the module docstring); the key set of each dict — needed
for the period-universe rule — is the image of the relevant period key over
the contributing list. -/

/-- `merged_authors_by_period[p]` (line 462). -/
def mergedAuthorsByPeriod (ph : Phase1) (tf : TF) (p : String) : Finset String :=
  ((ph.mergedPRs.filter (fun r => r.keys.get tf = p)).map (·.author)).toFinset

/-- `prs_by_author_period[p][author]` (line 463). -/
def prsByAuthorPeriod (ph : Phase1) (tf : TF) (p author : String) : ℕ :=
  ph.mergedPRs.countP (fun r => r.keys.get tf = p ∧ r.author = author)

/-- `ttm_days` of a merged-PR record (lines 464-466):
`(merge_dt - create_dt).total_seconds() / 86400`. -/
def ttmDays (r : MergedRec) : ℚ := ((r.mergeSecs : ℚ) - (r.createdSecs : ℚ)) / 86400

/-- `ttm_by_period[p]` (line 467), in the iteration order of the sorted
merged list. -/
def ttmByPeriod (ph : Phase1) (tf : TF) (p : String) : List ℚ :=
  ((mergedSorted ph).filter (fun r => r.keys.get tf = p)).map ttmDays

/-- `ttm_by_period_with_author[p]` (line 468). -/
def ttmWithAuthor (ph : Phase1) (tf : TF) (p : String) : List (ℚ × String) :=
  ((mergedSorted ph).filter (fun r => r.keys.get tf = p)).map (fun r => (ttmDays r, r.author))

/-- The size bucket of a merged PR (lines 469-476). -/
def sizeBucket (r : MergedRec) : String :=
  if r.additions + r.deletions ≤ 50 then "S"
  else if r.additions + r.deletions ≤ 500 then "M"
  else "L"

/-- `ttm_by_size_period[p][bucket]` (line 477). -/
def ttmSizeList (ph : Phase1) (tf : TF) (p bucket : String) : List ℚ :=
  ((mergedSorted ph).filter (fun r => r.keys.get tf = p ∧ sizeBucket r = bucket)).map ttmDays

/-- `closed_by_author_period[p][author]` (lines 486-487). -/
def closedByAuthorPeriod (ph : Phase1) (tf : TF) (p author : String) : ℕ :=
  ph.closedPRs.countP (fun r => r.keys.get tf = p ∧ r.author = author)

/-- `all_authors_by_period[p]` (lines 490-492). -/
def allAuthorsByPeriod (ph : Phase1) (tf : TF) (p : String) : Finset String :=
  ((ph.allPRs.filter (fun r => r.keys.get tf = p)).map (·.author)).toFinset

/-- `no_merge_by_period[p]` (lines 495-497): opened a PR in `p` but had none
merged in `p`. For `p` outside the keys of both dicts this is the `∅ - ∅`
the `.get(p, set())` defaults produce. -/
def noMergeByPeriod (ph : Phase1) (tf : TF) (p : String) : Finset String :=
  allAuthorsByPeriod ph tf p \ mergedAuthorsByPeriod ph tf p

/-- `first_time_by_period[p]` (lines 499-503). -/
def firstTimeByPeriod (ph : Phase1) (tf : TF) (p : String) : Finset String :=
  (((authorFirstMerge ph).filter (fun e => e.keys.get tf = p)).map (·.author)).toFinset

/-- `comment_counts[tf][period][user]` (built by `collect_comments`). -/
def commentCount (ph : Phase1) (tf : TF) (p user : String) : ℕ :=
  ph.commentContribs.countP (fun c => c.1.get tf = p ∧ c.2 = user)

/-- `COMMENT_THRESHOLD` (line 14). -/
def commentThreshold : ℕ := 100

/-- The users of `prolific_by_period[p]` (lines 506-509): commenters with
strictly more than `COMMENT_THRESHOLD` comments in the period. -/
def prolificSet (ph : Phase1) (tf : TF) (p : String) : Finset String :=
  ((ph.commentContribs.filter (fun c => c.1.get tf = p)).map (·.2)).toFinset.filter
    (fun u => commentThreshold < commentCount ph tf p u)

/-- The key set of `merged_authors_by_period`. -/
def mergedPeriodsList (ph : Phase1) (tf : TF) : List String :=
  ph.mergedPRs.map (fun r => r.keys.get tf)

/-- The key set of `all_authors_by_period`. -/
def allPRPeriodsList (ph : Phase1) (tf : TF) : List String :=
  ph.allPRs.map (fun r => r.keys.get tf)

/-- The key set of `first_time_by_period`. -/
def firstTimePeriodsList (ph : Phase1) (tf : TF) : List String :=
  (authorFirstMerge ph).map (fun e => e.keys.get tf)

/-- The key set of `comment_counts[tf]`, which is also the key set of
`prolific_by_period` (lines 506-509 insert a — possibly empty — dict for
every commented period). -/
def commentPeriodsList (ph : Phase1) (tf : TF) : List String :=
  ph.commentContribs.map (fun c => c.1.get tf)

/-- `all_periods` (lines 511-517): the sorted union of the key sets of
`merged_authors_by_period`, `all_authors_by_period`, `first_time_by_period`
and `prolific_by_period`. `sorted` over a Python `set` is modelled by
deduplication followed by a sort. -/
def allPeriods (ph : Phase1) (tf : TF) : List String :=
  List.insertionSort strLe
    ((mergedPeriodsList ph tf ++ allPRPeriodsList ph tf ++
      firstTimePeriodsList ph tf ++ commentPeriodsList ph tf).dedup)

/-- `merge_access_by_period[p]` (line 525). -/
def mergeAccessByPeriod (ph : Phase1) (tf : TF) (p : String) : Finset String :=
  ((ph.mergeActors.filter (fun r => r.keys.get tf = p)).map (·.actor)).toFinset

/-- `merges_by_actor_period[p][merger]` (line 526). -/
def mergesByActorPeriod (ph : Phase1) (tf : TF) (p actor : String) : ℕ :=
  ph.mergeActors.countP (fun r => r.keys.get tf = p ∧ r.actor = actor)

/-- `global_author_counts[author]` (lines 529-532). The loop sums
`prs_by_author_period[p][author]` over `p ∈ all_periods`; every merged-PR
period is in `all_periods`, so the sum is the author's total merged count. -/
def globalAuthorCount (ph : Phase1) (author : String) : ℕ :=
  ph.mergedPRs.countP (fun r => r.author = author)

/-- The items of `global_author_counts` in dict insertion order: authors are
first inserted at their first merged PR in the period-major traversal of the
date-sorted merged list, which is their order in `author_first_merge`. -/
def globalAuthorItems (ph : Phase1) : List (String × ℕ) :=
  (authorFirstMerge ph).map (fun e => (e.author, globalAuthorCount ph e.author))

/-- `top5_authors` (lines 533-535): the first five of the stable descending
sort by count. -/
def top5Authors (ph : Phase1) : Finset String :=
  (((List.insertionSort (fun a b : String × ℕ => b.2 ≤ a.2) (globalAuthorItems ph)).take 5).map
    (·.1)).toFinset

/-- `_AGE_BUCKETS` (lines 538-546). -/
def ageBuckets : List (ℚ × ℚ × String) :=
  [(0, 7, "<1w"), (7, 30, "1-4w"), (30, 90, "1-3m"), (90, 180, "3-6m"),
   (180, 365, "6-12m"), (365, 730, "1-2y"), (730, 1000000000, "2y+")]

/-- `_AGE_BUCKET_LABELS` (line 547). -/
def ageBucketLabels : List String := ageBuckets.map (fun b => b.2.2)

/-- The bucket assigned to an age by the `for ... if lo <= age_days < hi:
...; break` loop (lines 552-555): the first matching half-open range, if
any. -/
def bucketOf (age : ℚ) : Option String :=
  ageBuckets.findSome? (fun b => if b.1 ≤ age ∧ age < b.2.1 then some b.2.2 else none)

/-- `review_by_pr_age[p][label]` (lines 548-555). -/
def reviewByPrAge (ph : Phase1) (tf : TF) (p label : String) : ℕ :=
  ph.ageEvents.countP (fun e => e.keys.get tf = p ∧ bucketOf (ageDaysOf e) = some label)

/-! ## Output maps (lines 557-624)

Each per-period output dict is a comprehension over `all_periods`; it is
modelled as the association list pairing every `p ∈ all_periods` with the
statistic's value (with the `.get(p, default)` fallback already folded into
the per-period functions above). -/

/-- A per-period output map: one entry per element of `all_periods`. -/
def outMap {V : Type} (ph : Phase1) (tf : TF) (f : String → V) : List (String × V) :=
  (allPeriods ph tf).map (fun p => (p, f p))

/-- `avg_time_to_merge` (lines 576-579). -/
def avgTimeToMerge (ph : Phase1) (tf : TF) (p : String) : ℚ :=
  let l := ttmByPeriod ph tf p
  if l = [] then 0 else round1 (l.sum / l.length)

/-- `median_time_to_merge` (lines 580-583):
`round(sorted(ttm_by_period[p])[len(ttm_by_period[p]) // 2], 1)` for a
period with data, else 0. -/
def medianTimeToMerge (ph : Phase1) (tf : TF) (p : String) : ℚ :=
  let l := ttmByPeriod ph tf p
  if l = [] then 0
  else round1 ((List.insertionSort (· ≤ ·) l).getD (l.length / 2) 0)

/-- The filter-then-average lambda of lines 589-599, parameterized by the
exclusion set. -/
def avgExcl (excl : Finset String) (ph : Phase1) (tf : TF) (p : String) : ℚ :=
  let vals := ((ttmWithAuthor ph tf p).filter (fun x => x.2 ∉ excl)).map (·.1)
  if vals = [] then 0 else round1 (vals.sum / vals.length)

/-- `avg_time_to_merge_excl_top5` (lines 588-593). -/
def avgTTMExclTop5 (ph : Phase1) (tf : TF) (p : String) : ℚ :=
  avgExcl (top5Authors ph) ph tf p

/-- `avg_time_to_merge_excl_maintainers` (lines 594-599). -/
def avgTTMExclMaintainers (ph : Phase1) (tf : TF) (p : String) : ℚ :=
  avgExcl (allMaintainers ph) ph tf p

/-- One bucket map of `ttm_by_size` (lines 600-607). -/
def ttmBySizeAvg (ph : Phase1) (tf : TF) (p bucket : String) : ℚ :=
  let l := ttmSizeList ph tf p bucket
  if l = [] then 0 else round1 (l.sum / l.length)

/-- First-occurrence deduplication: the key order of a Python dict built by
`d[k] += 1` accumulation. -/
def firstDedup : List String → List String
  | [] => []
  | a :: rest => a :: firstDedup (rest.filter (fun x => x ≠ a))
termination_by l => l.length
decreasing_by
  exact Nat.lt_succ_of_le (List.length_filter_le _ _)

/-- A Python counter dict sorted descending by value
(`dict(sorted(d.items(), key=lambda x: -x[1]))`), given the keys in
insertion order. -/
def sortedDescCounts (ks : List String) (cnt : String → ℕ) : List (String × ℕ) :=
  List.insertionSort (fun a b : String × ℕ => b.2 ≤ a.2)
    ((firstDedup ks).map (fun k => (k, cnt k)))

/-- `merges_by_actor[p]` (lines 572-575). -/
def mergesByActorOut (ph : Phase1) (tf : TF) (p : String) : List (String × ℕ) :=
  sortedDescCounts ((ph.mergeActors.filter (fun r => r.keys.get tf = p)).map (·.actor))
    (mergesByActorPeriod ph tf p)

/-- `prs_by_author[p]` (lines 584-587). -/
def prsByAuthorOut (ph : Phase1) (tf : TF) (p : String) : List (String × ℕ) :=
  sortedDescCounts (((mergedSorted ph).filter (fun r => r.keys.get tf = p)).map (·.author))
    (prsByAuthorPeriod ph tf p)

/-- `prolific_commenter_details[p]` (lines 568-571). -/
def prolificDetailsOut (ph : Phase1) (tf : TF) (p : String) : List (String × ℕ) :=
  List.insertionSort (fun a b : String × ℕ => b.2 ≤ a.2)
    (((firstDedup ((ph.commentContribs.filter (fun c => c.1.get tf = p)).map (·.2))).filter
      (fun u => commentThreshold < commentCount ph tf p u)).map
      (fun u => (u, commentCount ph tf p u)))

/-- `label_counts_pr[p]` / `label_counts_issue[p]` from the flat label
contributions (lines 616-623). -/
def labelCountsOut (contribs : List (Keys × String)) (tf : TF) (p : String) :
    List (String × ℕ) :=
  sortedDescCounts ((contribs.filter (fun c => c.1.get tf = p)).map (·.2))
    (fun l => contribs.countP (fun c => c.1.get tf = p ∧ c.2 = l))

/-- `review_by_pr_age[p]` (lines 612-615): a fixed-shape map over all seven
bucket labels. -/
def reviewByPrAgeOut (ph : Phase1) (tf : TF) (p : String) : List (String × ℕ) :=
  ageBucketLabels.map (fun label => (label, reviewByPrAge ph tf p label))

/-- One timeframe bundle of the output (lines 557-624), with every
per-period map as an association list keyed by `all_periods`
(`contributor_stats` is keyed by author, not by period, and
`review_by_pr_age_buckets` is a plain list; neither is a per-period map). -/
structure TFBundle where
  periods : List String
  unique_author_counts : List (String × ℕ)
  no_merge_author_counts : List (String × ℕ)
  first_time_author_counts : List (String × ℕ)
  prolific_commenter_counts : List (String × ℕ)
  merge_access_counts : List (String × ℕ)
  merge_access_users : List (String × List String)
  unique_authors : List (String × List String)
  no_merge_authors : List (String × List String)
  first_time_authors : List (String × List String)
  prolific_commenter_details : List (String × List (String × ℕ))
  merges_by_actor : List (String × List (String × ℕ))
  avg_time_to_merge : List (String × ℚ)
  median_time_to_merge : List (String × ℚ)
  prs_by_author : List (String × List (String × ℕ))
  avg_time_to_merge_excl_top5 : List (String × ℚ)
  avg_time_to_merge_excl_maintainers : List (String × ℚ)
  ttm_by_size_S : List (String × ℚ)
  ttm_by_size_M : List (String × ℚ)
  ttm_by_size_L : List (String × ℚ)
  review_by_pr_age : List (String × List (String × ℕ))
  label_counts_pr : List (String × List (String × ℕ))
  label_counts_issue : List (String × List (String × ℕ))

/-- `timeframes[tf]` (lines 557-624). -/
def mkBundle (ph : Phase1) (tf : TF) : TFBundle :=
  { periods := allPeriods ph tf
    unique_author_counts := outMap ph tf (fun p => (mergedAuthorsByPeriod ph tf p).card)
    no_merge_author_counts := outMap ph tf (fun p => (noMergeByPeriod ph tf p).card)
    first_time_author_counts := outMap ph tf (fun p => (firstTimeByPeriod ph tf p).card)
    prolific_commenter_counts := outMap ph tf (fun p => (prolificSet ph tf p).card)
    merge_access_counts := outMap ph tf (fun p => (mergeAccessByPeriod ph tf p).card)
    merge_access_users := outMap ph tf (fun p => (mergeAccessByPeriod ph tf p).sort strLe)
    unique_authors := outMap ph tf (fun p => (mergedAuthorsByPeriod ph tf p).sort strLe)
    no_merge_authors := outMap ph tf (fun p => (noMergeByPeriod ph tf p).sort strLe)
    first_time_authors := outMap ph tf (fun p => (firstTimeByPeriod ph tf p).sort strLe)
    prolific_commenter_details := outMap ph tf (prolificDetailsOut ph tf)
    merges_by_actor := outMap ph tf (mergesByActorOut ph tf)
    avg_time_to_merge := outMap ph tf (avgTimeToMerge ph tf)
    median_time_to_merge := outMap ph tf (medianTimeToMerge ph tf)
    prs_by_author := outMap ph tf (prsByAuthorOut ph tf)
    avg_time_to_merge_excl_top5 := outMap ph tf (avgTTMExclTop5 ph tf)
    avg_time_to_merge_excl_maintainers := outMap ph tf (avgTTMExclMaintainers ph tf)
    ttm_by_size_S := outMap ph tf (fun p => ttmBySizeAvg ph tf p "S")
    ttm_by_size_M := outMap ph tf (fun p => ttmBySizeAvg ph tf p "M")
    ttm_by_size_L := outMap ph tf (fun p => ttmBySizeAvg ph tf p "L")
    review_by_pr_age := outMap ph tf (reviewByPrAgeOut ph tf)
    label_counts_pr := outMap ph tf (labelCountsOut ph.labelPR tf)
    label_counts_issue := outMap ph tf (labelCountsOut ph.labelIssue tf) }

deriving instance DecidableEq for Except

/-! ## General lemmas -/

theorem roundHalfEven_intCast (n : ℤ) : roundHalfEven (n : ℚ) = n := by
  unfold roundHalfEven
  rw [Int.floor_intCast]
  norm_num

theorem round1_intCast (n : ℤ) : round1 (n : ℚ) = n := by
  unfold round1
  have h : (10 : ℚ) * n = ((10 * n : ℤ) : ℚ) := by push_cast; ring
  rw [h, roundHalfEven_intCast]
  push_cast
  ring

theorem ttmDays_eq_days (r : MergedRec) (k : ℤ)
    (h : (r.mergeSecs : ℤ) - (r.createdSecs : ℤ) = 86400 * k) : ttmDays r = (k : ℚ) := by
  unfold ttmDays
  have h2 : ((r.mergeSecs : ℚ) - (r.createdSecs : ℚ)) =
      (((r.mergeSecs : ℤ) - (r.createdSecs : ℤ) : ℤ) : ℚ) := by push_cast; ring
  rw [h2, h]
  push_cast
  ring

/-! ## Example inputs used by several claims -/

/-- A merged-PR record from explicit merge/creation timestamps. -/
def mkM (md cd : String) (mdt cdt : DT) (a : String) : MergedRec :=
  MergedRec.mk md cd a (keysOfDT mdt) 0 0 0 (epochSecs mdt) (epochSecs cdt)

/-- A PR by "alice", created 2021-01-01 and merged 2021-01-03 by "alice"
herself (so the merging author is a maintainer). -/
def exSelfMergePR : PRData :=
  { pull := { number := 1, author := "alice", created_at := "2021-01-01T00:00:00Z",
              additions := 10, commits := 1 }
    events := [{ etype := "merged", actor := some "alice",
                 created_at := some "2021-01-03T00:00:00Z" }] }

def exKeys2101 : Keys := Keys.mk "2021" "2021-Q1" "2021-01"

/-- The ingestion result for `[exSelfMergePR]`. -/
def exSelfMergePh : Phase1 :=
  { mergedPRs := [MergedRec.mk "2021-01-03T00:00:00Z" "2021-01-01T00:00:00Z" "alice" exKeys2101
      10 0 1 (epochSecs (DT.mk 2021 1 3 0 0 0)) (epochSecs (DT.mk 2021 1 1 0 0 0))]
    allPRs := [AllRec.mk "2021-01-01T00:00:00Z" "alice" exKeys2101]
    mergeActors := [ActorRec.mk "2021-01-03T00:00:00Z" exKeys2101 "alice"] }

/-! ## Claim C9 — empty-denominator averages -/

/-- C9: every average over an empty denominator yields 0 instead of raising:
`avg_time_to_merge` on a period with no merged PRs, a `ttm_by_size` bucket
with no PRs of that size, and the two exclusion-filtered averages when the
filter leaves no PRs. (The embedding is total, so no division error can
occur; the conjuncts show the guarded value is 0.) The final conjuncts
exercise the pipeline: a PR merged by its own author makes the
maintainer-excluded average 0 even though the period has merged PRs. -/
theorem avg_empty_denominators_yield_zero :
    (∀ (ph : Phase1) (tf : TF) (p : String),
      (ttmByPeriod ph tf p = [] → avgTimeToMerge ph tf p = 0) ∧
      (∀ b, ttmSizeList ph tf p b = [] → ttmBySizeAvg ph tf p b = 0) ∧
      (((ttmWithAuthor ph tf p).filter (fun x => x.2 ∉ top5Authors ph)).map (·.1) = [] →
        avgTTMExclTop5 ph tf p = 0) ∧
      (((ttmWithAuthor ph tf p).filter (fun x => x.2 ∉ allMaintainers ph)).map (·.1) = [] →
        avgTTMExclMaintainers ph tf p = 0)) ∧
    extractPhase1 [] [exSelfMergePR] [] = .ok exSelfMergePh ∧
    ttmByPeriod exSelfMergePh TF.month "2021-01" ≠ [] ∧
    avgTTMExclMaintainers exSelfMergePh TF.month "2021-01" = 0 ∧
    avgTimeToMerge exSelfMergePh TF.month "2021-01" = 2 := by
  refine ⟨fun ph tf p => ⟨?_, ?_, ?_, ?_⟩, by decide, by decide, ?_, ?_⟩
  · intro h
    unfold avgTimeToMerge
    simp [h]
  · intro b h
    unfold ttmBySizeAvg
    simp [h]
  · intro h
    unfold avgTTMExclTop5 avgExcl
    simp only [h]
    rfl
  · intro h
    unfold avgTTMExclMaintainers avgExcl
    simp only [h]
    rfl
  · unfold avgTTMExclMaintainers avgExcl
    have h : ((ttmWithAuthor exSelfMergePh TF.month "2021-01").filter
        (fun x => x.2 ∉ allMaintainers exSelfMergePh)).map (·.1) = [] := by decide
    simp only [h]
    rfl
  · unfold avgTimeToMerge
    have h : ttmByPeriod exSelfMergePh TF.month "2021-01" =
        [ttmDays (MergedRec.mk "2021-01-03T00:00:00Z" "2021-01-01T00:00:00Z" "alice" exKeys2101
          10 0 1 (epochSecs (DT.mk 2021 1 3 0 0 0)) (epochSecs (DT.mk 2021 1 1 0 0 0)))] := rfl
    have h2 := ttmDays_eq_days (MergedRec.mk "2021-01-03T00:00:00Z" "2021-01-01T00:00:00Z"
      "alice" exKeys2101 10 0 1 (epochSecs (DT.mk 2021 1 3 0 0 0))
      (epochSecs (DT.mk 2021 1 1 0 0 0))) 2 (by decide)
    rw [h]
    rw [if_neg (by simp)]
    simp only [h2, List.sum_cons, List.sum_nil, List.length_cons, List.length_nil]
    have h3 : (((2 : ℤ) : ℚ) + 0) / ((0 + 1 : ℕ) : ℚ) = ((2 : ℤ) : ℚ) := by push_cast; norm_num
    rw [h3, round1_intCast]
    norm_num

/-- C9 witness: the empty-denominator implications discharged at a concrete
input — a period with no merged PRs at all. -/
theorem avg_empty_denominators_yield_zero_witness :
    ttmByPeriod exSelfMergePh TF.year "1999" = [] ∧
    avgTimeToMerge exSelfMergePh TF.year "1999" = 0 ∧
    ttmSizeList exSelfMergePh TF.year "1999" "S" = [] ∧
    ttmBySizeAvg exSelfMergePh TF.year "1999" "S" = 0 := by
  have h := (avg_empty_denominators_yield_zero.1 exSelfMergePh TF.year "1999")
  exact ⟨by decide, h.1 (by decide), by decide, h.2.1 "S" (by decide)⟩

/-! ## Claim C7 — no-merge / merged author partition -/

/-- C7: for every timeframe and period, `no_merge_authors[p]` is disjoint
from the merged-author set `unique_authors[p]`, and their union is
`all_authors_by_period[p]` whenever every author who merged in `p` also
opened a PR in `p`. -/
theorem no_merge_partition (ph : Phase1) (tf : TF) (p : String) :
    Disjoint (noMergeByPeriod ph tf p) (mergedAuthorsByPeriod ph tf p) ∧
    (mergedAuthorsByPeriod ph tf p ⊆ allAuthorsByPeriod ph tf p →
      noMergeByPeriod ph tf p ∪ mergedAuthorsByPeriod ph tf p = allAuthorsByPeriod ph tf p) := by
  constructor
  · unfold noMergeByPeriod
    exact Finset.sdiff_disjoint
  · intro h
    unfold noMergeByPeriod
    exact Finset.sdiff_union_of_subset h

/-- C7 witness: both parts at a concrete ingested state whose merging author
also opened her PR in the same period. -/
theorem no_merge_partition_witness :
    mergedAuthorsByPeriod exSelfMergePh TF.month "2021-01" ⊆
      allAuthorsByPeriod exSelfMergePh TF.month "2021-01" ∧
    noMergeByPeriod exSelfMergePh TF.month "2021-01" ∪
      mergedAuthorsByPeriod exSelfMergePh TF.month "2021-01" =
      allAuthorsByPeriod exSelfMergePh TF.month "2021-01" :=
  ⟨by decide, (no_merge_partition exSelfMergePh TF.month "2021-01").2 (by decide)⟩

/-! ## Claim C1 — median time to merge -/

/-- Merged PRs for the odd-length median example: time-to-merge values
(in merge-date order) 3, 1, 5 days, all merged in 2021-01. -/
def phMedianOdd : Phase1 :=
  { mergedPRs :=
      [mkM "2021-01-11T00:00:00Z" "2021-01-08T00:00:00Z"
        (DT.mk 2021 1 11 0 0 0) (DT.mk 2021 1 8 0 0 0) "a1",
       mkM "2021-01-12T00:00:00Z" "2021-01-11T00:00:00Z"
        (DT.mk 2021 1 12 0 0 0) (DT.mk 2021 1 11 0 0 0) "a2",
       mkM "2021-01-13T00:00:00Z" "2021-01-08T00:00:00Z"
        (DT.mk 2021 1 13 0 0 0) (DT.mk 2021 1 8 0 0 0) "a3"] }

/-- Merged PRs for the even-length median example: time-to-merge values
(in merge-date order) 2, 4, 1, 3 days, all merged in 2021-01. -/
def phMedianEven : Phase1 :=
  { mergedPRs :=
      [mkM "2021-01-11T00:00:00Z" "2021-01-09T00:00:00Z"
        (DT.mk 2021 1 11 0 0 0) (DT.mk 2021 1 9 0 0 0) "a1",
       mkM "2021-01-12T00:00:00Z" "2021-01-08T00:00:00Z"
        (DT.mk 2021 1 12 0 0 0) (DT.mk 2021 1 8 0 0 0) "a2",
       mkM "2021-01-13T00:00:00Z" "2021-01-12T00:00:00Z"
        (DT.mk 2021 1 13 0 0 0) (DT.mk 2021 1 12 0 0 0) "a3",
       mkM "2021-01-14T00:00:00Z" "2021-01-11T00:00:00Z"
        (DT.mk 2021 1 14 0 0 0) (DT.mk 2021 1 11 0 0 0) "a4"] }

/-- C1 counterexample: on the even-length day list `[1, 2, 3, 4]` the median
is the **upper**-middle element 3 (index `4 // 2 = 2` of the sorted list),
not the lower-middle element 2 the claim states (nor the interpolated 5/2). -/
theorem median_even_counterexample :
    List.insertionSort (· ≤ ·) (ttmByPeriod phMedianEven TF.month "2021-01") =
      [1, 2, 3, 4] ∧
    medianTimeToMerge phMedianEven TF.month "2021-01" = 3 ∧
    (3 : ℚ) ≠ 2 ∧ (3 : ℚ) ≠ 5 / 2 := by
  have hf : (mergedSorted phMedianEven).filter (fun r => r.keys.get TF.month = "2021-01") =
      phMedianEven.mergedPRs := by decide
  have h : ttmByPeriod phMedianEven TF.month "2021-01" =
      phMedianEven.mergedPRs.map ttmDays := by
    unfold ttmByPeriod
    rw [hf]
  have e1 : ttmDays (mkM "2021-01-11T00:00:00Z" "2021-01-09T00:00:00Z"
      (DT.mk 2021 1 11 0 0 0) (DT.mk 2021 1 9 0 0 0) "a1") = ((2 : ℤ) : ℚ) :=
    ttmDays_eq_days _ 2 (by decide)
  have e2 : ttmDays (mkM "2021-01-12T00:00:00Z" "2021-01-08T00:00:00Z"
      (DT.mk 2021 1 12 0 0 0) (DT.mk 2021 1 8 0 0 0) "a2") = ((4 : ℤ) : ℚ) :=
    ttmDays_eq_days _ 4 (by decide)
  have e3 : ttmDays (mkM "2021-01-13T00:00:00Z" "2021-01-12T00:00:00Z"
      (DT.mk 2021 1 13 0 0 0) (DT.mk 2021 1 12 0 0 0) "a3") = ((1 : ℤ) : ℚ) :=
    ttmDays_eq_days _ 1 (by decide)
  have e4 : ttmDays (mkM "2021-01-14T00:00:00Z" "2021-01-11T00:00:00Z"
      (DT.mk 2021 1 14 0 0 0) (DT.mk 2021 1 11 0 0 0) "a4") = ((3 : ℤ) : ℚ) :=
    ttmDays_eq_days _ 3 (by decide)
  have hl : ttmByPeriod phMedianEven TF.month "2021-01" = [(2 : ℚ), 4, 1, 3] := by
    rw [h]
    show [ttmDays _, ttmDays _, ttmDays _, ttmDays _] = _
    rw [e1, e2, e3, e4]
    norm_num
  have hs : List.insertionSort (· ≤ ·) [(2 : ℚ), 4, 1, 3] = [1, 2, 3, 4] := by
    simp [List.insertionSort, List.orderedInsert]
    norm_num
  refine ⟨by rw [hl, hs], ?_, by norm_num, by norm_num⟩
  unfold medianTimeToMerge
  rw [hl]
  rw [if_neg (by simp)]
  rw [hs]
  have hg : ([(1 : ℚ), 2, 3, 4]).getD (([(2 : ℚ), 4, 1, 3]).length / 2) 0 = 3 := by norm_num
  rw [hg, show (3 : ℚ) = ((3 : ℤ) : ℚ) by norm_num, round1_intCast]

/-- C1 (amended): `median_time_to_merge` is 0 on a period with no merged
PRs, and otherwise the element at integer-division index `len // 2` of the
sorted time-to-merge list, rounded to one decimal — which on the odd-length
list `[1, 3, 5]` is 3, but on the even-length list `[1, 2, 3, 4]` is the
upper-middle element 3 (not the lower-middle 2 and not 5/2). -/
theorem median_integer_divide_index :
    (∀ (ph : Phase1) (tf : TF) (p : String),
      (ttmByPeriod ph tf p = [] → medianTimeToMerge ph tf p = 0) ∧
      (ttmByPeriod ph tf p ≠ [] →
        medianTimeToMerge ph tf p =
          round1 ((List.insertionSort (· ≤ ·) (ttmByPeriod ph tf p)).getD
            ((ttmByPeriod ph tf p).length / 2) 0))) ∧
    medianTimeToMerge phMedianOdd TF.month "2021-01" = 3 ∧
    medianTimeToMerge phMedianEven TF.month "2021-01" = 3 := by
  refine ⟨fun ph tf p => ⟨?_, ?_⟩, ?_, median_even_counterexample.2.1⟩
  · intro h
    unfold medianTimeToMerge
    simp [h]
  · intro h
    unfold medianTimeToMerge
    rw [if_neg h]
  · have hf : (mergedSorted phMedianOdd).filter (fun r => r.keys.get TF.month = "2021-01") =
        phMedianOdd.mergedPRs := by decide
    have h : ttmByPeriod phMedianOdd TF.month "2021-01" = phMedianOdd.mergedPRs.map ttmDays := by
      unfold ttmByPeriod
      rw [hf]
    have e1 : ttmDays (mkM "2021-01-11T00:00:00Z" "2021-01-08T00:00:00Z"
        (DT.mk 2021 1 11 0 0 0) (DT.mk 2021 1 8 0 0 0) "a1") = ((3 : ℤ) : ℚ) :=
      ttmDays_eq_days _ 3 (by decide)
    have e2 : ttmDays (mkM "2021-01-12T00:00:00Z" "2021-01-11T00:00:00Z"
        (DT.mk 2021 1 12 0 0 0) (DT.mk 2021 1 11 0 0 0) "a2") = ((1 : ℤ) : ℚ) :=
      ttmDays_eq_days _ 1 (by decide)
    have e3 : ttmDays (mkM "2021-01-13T00:00:00Z" "2021-01-08T00:00:00Z"
        (DT.mk 2021 1 13 0 0 0) (DT.mk 2021 1 8 0 0 0) "a3") = ((5 : ℤ) : ℚ) :=
      ttmDays_eq_days _ 5 (by decide)
    have hl : ttmByPeriod phMedianOdd TF.month "2021-01" = [(3 : ℚ), 1, 5] := by
      rw [h]
      show [ttmDays _, ttmDays _, ttmDays _] = _
      rw [e1, e2, e3]
      norm_num
    unfold medianTimeToMerge
    rw [hl]
    rw [if_neg (by simp)]
    have hs : List.insertionSort (· ≤ ·) [(3 : ℚ), 1, 5] = [1, 3, 5] := by
      simp [List.insertionSort, List.orderedInsert]
      norm_num
    rw [hs]
    have hg : ([(1 : ℚ), 3, 5]).getD (([(3 : ℚ), 1, 5]).length / 2) 0 = 3 := by norm_num
    rw [hg, show (3 : ℚ) = ((3 : ℤ) : ℚ) by norm_num, round1_intCast]

/-- C1 witness: both implications of the general conjunct discharged at
concrete inputs. -/
theorem median_integer_divide_index_witness :
    ttmByPeriod phMedianOdd TF.year "1999" = [] ∧
    medianTimeToMerge phMedianOdd TF.year "1999" = 0 ∧
    ttmByPeriod phMedianOdd TF.year "2021" ≠ [] ∧
    medianTimeToMerge phMedianOdd TF.year "2021" =
      round1 ((List.insertionSort (· ≤ ·) (ttmByPeriod phMedianOdd TF.year "2021")).getD
        ((ttmByPeriod phMedianOdd TF.year "2021").length / 2) 0) := by
  have h := median_integer_divide_index.1 phMedianOdd TF.year
  exact ⟨by decide, (h "1999").1 (by decide), by decide, (h "2021").2 (by decide)⟩

/-! ## Claim C2 — terminal-outcome scan -/

theorem getLast?_cons_or {α : Type} (a : α) (l : List α) :
    (a :: l).getLast? = l.getLast?.or (some a) := by
  cases l with
  | nil => simp
  | cons b t =>
    rw [List.getLast?_cons_cons]
    rw [Option.or_of_isSome (List.getLast?_isSome.mpr (by simp))]

theorem prOutcome_foldl (evs : List Event) (mi ci : Option Event) :
    evs.foldl
      (fun acc ev =>
        if ev.etype = "merged" then (some ev, acc.2)
        else if ev.etype = "closed" ∧ acc.2 = none then (acc.1, some ev)
        else acc)
      (mi, ci) =
    (((evs.filter (fun e => e.etype = "merged")).getLast?).or mi,
      ci.or ((evs.filter (fun e => e.etype = "closed")).head?)) := by
  induction evs generalizing mi ci with
  | nil => simp
  | cons e evs ih =>
    by_cases hm : e.etype = "merged"
    · have hmc : ¬ (("merged" : String) = "closed") := by decide
      simp only [List.foldl_cons, List.filter_cons, hm, eq_self_iff_true, if_true, decide_True,
        eq_false hmc, false_and, if_false, decide_False, ite_true, ite_false]
      rw [ih]
      refine Prod.ext ?_ rfl
      show (List.filter _ evs).getLast?.or (some e) = ((e :: List.filter _ evs).getLast?).or mi
      rw [getLast?_cons_or, Option.or_assoc]
      rfl
    · by_cases hc : e.etype = "closed"
      · have hcm : ¬ (("closed" : String) = "merged") := by decide
        simp only [List.foldl_cons, List.filter_cons, hc, eq_self_iff_true, if_true, decide_True,
          eq_false hcm, if_false, decide_False, ite_true, ite_false, true_and]
        have hci : (if ci = none then (mi, some e) else (mi, ci)) = (mi, ci.or (some e)) := by
          cases ci <;> simp
        rw [hci, ih]
        refine Prod.ext rfl ?_
        show (ci.or (some e)).or ((List.filter _ evs).head?) =
          ci.or ((e :: List.filter _ evs).head?)
        rw [List.head?_cons, Option.or_assoc]
        rfl
      · simp only [List.foldl_cons, List.filter_cons, hm, hc, decide_False, ite_false, if_false,
          false_and]
        exact ih mi ci

/-- The scan of lines 246-252 keeps the **last** merged event (the
assignment `merge_event = ev` has no `is None` guard) and the first closed
event. -/
theorem prOutcome_eq (evs : List Event) :
    prOutcome evs = ((evs.filter (fun e => e.etype = "merged")).getLast?,
      (evs.filter (fun e => e.etype = "closed")).head?) := by
  unfold prOutcome
  rw [prOutcome_foldl]
  simp

theorem outcomeRecs_spec (m : UserMap) (author cd : String) (cdt : DT) (a d c : ℕ)
    (evs : List Event) (mrec : Option MergedRec) (crec : Option ClosedRec)
    (arec : Option ActorRec)
    (h : outcomeRecs m author cd cdt a d c evs = .ok (mrec, crec, arec)) :
    (∀ ev, (prOutcome evs).1 = some ev →
      crec = none ∧ ∃ r, mrec = some r ∧ ev.created_at = some r.merge_date ∧
        (∀ ar, arec = some ar → ∃ s, ev.actor = some s ∧ ar.actor = mapUsername m s)) ∧
    ((prOutcome evs).1 = none →
      mrec = none ∧ arec = none ∧
      (∀ ev, (prOutcome evs).2 = some ev →
        ∃ cr, crec = some cr ∧ ev.created_at = some cr.close_date) ∧
      ((prOutcome evs).2 = none → crec = none)) := by
  unfold outcomeRecs at h
  split at h
  next ev0 heq =>
    cases hca : ev0.created_at with
    | none => rw [hca] at h; simp [bind, Except.bind] at h
    | some d0 =>
      rw [hca] at h
      simp only [bind, Except.bind, pure, Except.pure] at h
      cases hp : isoParse d0 with
      | none => rw [hp] at h; simp [bind, Except.bind] at h
      | some t =>
        rw [hp] at h
        simp only [bind, Except.bind, pure, Except.pure, Except.ok.injEq, Prod.mk.injEq] at h
        obtain ⟨hm, hc, ha⟩ := h
        constructor
        · intro ev hev
          rw [heq] at hev
          cases hev
          refine ⟨hc.symm, _, hm.symm, hca, ?_⟩
          intro ar har
          rw [← ha] at har
          cases h4 : ev0.actor with
          | none => rw [h4] at har; cases har
          | some s =>
            rw [h4] at har
            have har2 : (if s ≠ "" then
                some (ActorRec.mk d0 (keysOfDT t) (mapUsername m s)) else none) = some ar := har
            by_cases h5 : s = ""
            · rw [if_neg (by simp [h5])] at har2
              cases har2
            · rw [if_pos h5] at har2
              cases har2
              exact ⟨s, rfl, rfl⟩
        · intro hnone
          rw [heq] at hnone
          cases hnone
  next heq =>
    split at h
    next ev0 heq2 =>
      cases hca : ev0.created_at with
      | none => rw [hca] at h; simp [bind, Except.bind] at h
      | some d0 =>
        rw [hca] at h
        simp only [bind, Except.bind, pure, Except.pure] at h
        cases hp : periodKeys d0 with
        | none => rw [hp] at h; simp [bind, Except.bind] at h
        | some k =>
          rw [hp] at h
          simp only [bind, Except.bind, pure, Except.pure, Except.ok.injEq, Prod.mk.injEq] at h
          obtain ⟨hm, hc, ha⟩ := h
          constructor
          · intro ev hev
            rw [heq] at hev
            cases hev
          · intro _
            refine ⟨hm.symm, ha.symm, ?_, ?_⟩
            · intro ev hev
              rw [heq2] at hev
              cases hev
              exact ⟨_, hc.symm, hca⟩
            · intro hn
              rw [heq2] at hn
              cases hn
    next heq2 =>
      simp only [pure, Except.pure, Except.ok.injEq, Prod.mk.injEq] at h
      obtain ⟨hm, hc, ha⟩ := h
      constructor
      · intro ev hev
        rw [heq] at hev
        cases hev
      · intro _
        exact ⟨hm.symm, ha.symm, fun ev hev => absurd hev (by rw [heq2]; simp), fun _ => hc.symm⟩

/-- Two merged events with distinct timestamps on one record. -/
def evMergedFirst : Event :=
  { etype := "merged", created_at := some "2021-01-03T00:00:00Z", actor := some "bob" }

def evMergedLast : Event :=
  { etype := "merged", created_at := some "2021-01-05T00:00:00Z", actor := some "carol" }

/-- The merged-PR record produced for `[evMergedFirst, evMergedLast]`: its
merge date and actor come from the **last** merged event. -/
def c2MergedRec : MergedRec :=
  MergedRec.mk "2021-01-05T00:00:00Z" "2021-01-01T00:00:00Z" "alice" exKeys2101 0 0 0
    (epochSecs (DT.mk 2021 1 5 0 0 0)) (epochSecs (DT.mk 2021 1 1 0 0 0))

def c2ActorRec : ActorRec := ActorRec.mk "2021-01-05T00:00:00Z" exKeys2101 "carol"

/-- C2 counterexample: on an event list with two merged events, the record's
merge date (and merge actor) come from the **last** merged event, not the
first one the claim names: the first merged event is dated 2021-01-03, but
the produced record carries 2021-01-05 and actor "carol". -/
theorem terminal_outcome_counterexample :
    ([evMergedFirst, evMergedLast].filter (fun e => e.etype = "merged")).head? =
      some evMergedFirst ∧
    evMergedFirst.created_at = some "2021-01-03T00:00:00Z" ∧
    outcomeRecs [] "alice" "2021-01-01T00:00:00Z" (DT.mk 2021 1 1 0 0 0) 0 0 0
      [evMergedFirst, evMergedLast] =
      .ok (some c2MergedRec, none, some c2ActorRec) ∧
    c2MergedRec.merge_date = "2021-01-05T00:00:00Z" ∧
    ("2021-01-03T00:00:00Z" : String) ≠ "2021-01-05T00:00:00Z" := by
  refine ⟨by decide, by decide, by decide, by decide, by decide⟩

/-- C2 (amended): the terminal-outcome scan remembers the **last** "merged"
event (every merged event overwrites `merge_event`) and, independently, the
first "closed" event; merged takes precedence — when a merged event exists
the record is merged (merge date and actor from that last merged event) and
is never counted as closed-without-merge; only with no merged event is the
first closed event used. -/
theorem terminal_outcome_scan :
    (∀ evs : List Event,
      prOutcome evs = ((evs.filter (fun e => e.etype = "merged")).getLast?,
        (evs.filter (fun e => e.etype = "closed")).head?)) ∧
    (∀ (m : UserMap) (author cd : String) (cdt : DT) (a d c : ℕ) (evs : List Event)
      (mrec : Option MergedRec) (crec : Option ClosedRec) (arec : Option ActorRec),
      outcomeRecs m author cd cdt a d c evs = .ok (mrec, crec, arec) →
      (∀ ev, (prOutcome evs).1 = some ev →
        crec = none ∧ ∃ r, mrec = some r ∧ ev.created_at = some r.merge_date ∧
          (∀ ar, arec = some ar → ∃ s, ev.actor = some s ∧ ar.actor = mapUsername m s)) ∧
      ((prOutcome evs).1 = none →
        mrec = none ∧ arec = none ∧
        (∀ ev, (prOutcome evs).2 = some ev →
          ∃ cr, crec = some cr ∧ ev.created_at = some cr.close_date) ∧
        ((prOutcome evs).2 = none → crec = none))) :=
  ⟨prOutcome_eq, fun m author cd cdt a d c evs mrec crec arec h =>
    outcomeRecs_spec m author cd cdt a d c evs mrec crec arec h⟩

/-- C2 witness: the precedence conclusions of `terminal_outcome_scan`
discharged at the concrete two-merged-events record. -/
theorem terminal_outcome_scan_witness :
    (none : Option ClosedRec) = none ∧
    ∃ r, (some c2MergedRec : Option MergedRec) = some r ∧
      evMergedLast.created_at = some r.merge_date ∧
      (∀ ar, (some c2ActorRec : Option ActorRec) = some ar →
        ∃ s, evMergedLast.actor = some s ∧ ar.actor = mapUsername [] s) := by
  have h := terminal_outcome_scan.2 [] "alice" "2021-01-01T00:00:00Z" (DT.mk 2021 1 1 0 0 0)
    0 0 0 [evMergedFirst, evMergedLast] (some c2MergedRec) none (some c2ActorRec) (by decide)
  exact h.1 evMergedLast (by decide)

/-! ## Claim C3 — period universe -/

theorem outMap_keys {V : Type} (ph : Phase1) (tf : TF) (f : String → V) :
    (outMap ph tf f).map Prod.fst = allPeriods ph tf := by
  simp only [outMap, List.map_map]
  exact List.map_id _

/-- A PR created in 2021-01 and closed (not merged) in 2021-02, with no
other activity: the close month has closed-PR data and nothing else. -/
def prClosedLater : PRData :=
  { pull := { number := 2, author := "dave", created_at := "2021-01-05T00:00:00Z" }
    events := [{ etype := "closed", created_at := some "2021-02-01T00:00:00Z" }] }

def phClosedLater : Phase1 :=
  { closedPRs := [ClosedRec.mk "2021-02-01T00:00:00Z" "dave" (Keys.mk "2021" "2021-Q1" "2021-02")]
    allPRs := [AllRec.mk "2021-01-05T00:00:00Z" "dave" (Keys.mk "2021" "2021-Q1" "2021-01")] }

/-- C3 counterexample: a period whose only data is a closed-without-merge PR
does **not** appear in the period list — the union at lines 511-517 never
includes the closed-PR (nor merge-action, label, review-age) key sets. -/
theorem period_universe_counterexample :
    extractPhase1 [] [prClosedLater] [] = .ok phClosedLater ∧
    (∃ r ∈ phClosedLater.closedPRs, r.keys.get TF.month = "2021-02") ∧
    "2021-02" ∉ allPeriods phClosedLater TF.month ∧
    "2021-01" ∈ allPeriods phClosedLater TF.month := by
  refine ⟨by decide, by decide, by decide, by decide⟩

/-- C3 (amended): a period appears in the sorted period list iff it has
merged-PR data (by merge date), opened-PR data (by creation date),
first-time-author data, or comment activity — **not** closed-PR, label,
merge-action or review-age data (merge actions and PR labels are always
covered by the merged/opened sets; closed-PR-only, issue-label-only or
review-age-only periods are dropped). The list is lexicographically sorted
without duplicates, and every per-period map of the timeframe bundle is
keyed by exactly this list (0/empty defaults fill periods lacking a
statistic). -/
theorem period_universe (ph : Phase1) (tf : TF) :
    (∀ p, p ∈ allPeriods ph tf ↔
      ((∃ r ∈ ph.mergedPRs, r.keys.get tf = p) ∨
       (∃ r ∈ ph.allPRs, r.keys.get tf = p) ∨
       (∃ e ∈ authorFirstMerge ph, e.keys.get tf = p) ∨
       (∃ c ∈ ph.commentContribs, c.1.get tf = p))) ∧
    List.Sorted strLe (allPeriods ph tf) ∧
    (allPeriods ph tf).Nodup ∧
    (mkBundle ph tf).periods = allPeriods ph tf ∧
    (mkBundle ph tf).unique_author_counts.map Prod.fst = allPeriods ph tf ∧
    (mkBundle ph tf).no_merge_author_counts.map Prod.fst = allPeriods ph tf ∧
    (mkBundle ph tf).first_time_author_counts.map Prod.fst = allPeriods ph tf ∧
    (mkBundle ph tf).prolific_commenter_counts.map Prod.fst = allPeriods ph tf ∧
    (mkBundle ph tf).merge_access_counts.map Prod.fst = allPeriods ph tf ∧
    (mkBundle ph tf).merge_access_users.map Prod.fst = allPeriods ph tf ∧
    (mkBundle ph tf).unique_authors.map Prod.fst = allPeriods ph tf ∧
    (mkBundle ph tf).no_merge_authors.map Prod.fst = allPeriods ph tf ∧
    (mkBundle ph tf).first_time_authors.map Prod.fst = allPeriods ph tf ∧
    (mkBundle ph tf).prolific_commenter_details.map Prod.fst = allPeriods ph tf ∧
    (mkBundle ph tf).merges_by_actor.map Prod.fst = allPeriods ph tf ∧
    (mkBundle ph tf).avg_time_to_merge.map Prod.fst = allPeriods ph tf ∧
    (mkBundle ph tf).median_time_to_merge.map Prod.fst = allPeriods ph tf ∧
    (mkBundle ph tf).prs_by_author.map Prod.fst = allPeriods ph tf ∧
    (mkBundle ph tf).avg_time_to_merge_excl_top5.map Prod.fst = allPeriods ph tf ∧
    (mkBundle ph tf).avg_time_to_merge_excl_maintainers.map Prod.fst = allPeriods ph tf ∧
    (mkBundle ph tf).ttm_by_size_S.map Prod.fst = allPeriods ph tf ∧
    (mkBundle ph tf).ttm_by_size_M.map Prod.fst = allPeriods ph tf ∧
    (mkBundle ph tf).ttm_by_size_L.map Prod.fst = allPeriods ph tf ∧
    (mkBundle ph tf).review_by_pr_age.map Prod.fst = allPeriods ph tf ∧
    (mkBundle ph tf).label_counts_pr.map Prod.fst = allPeriods ph tf ∧
    (mkBundle ph tf).label_counts_issue.map Prod.fst = allPeriods ph tf := by
  refine ⟨?_, ?_, ?_, rfl, ?_, ?_, ?_, ?_, ?_, ?_, ?_, ?_, ?_, ?_, ?_, ?_, ?_, ?_, ?_, ?_,
    ?_, ?_, ?_, ?_, ?_, ?_⟩
  · intro p
    unfold allPeriods mergedPeriodsList allPRPeriodsList firstTimePeriodsList commentPeriodsList
    rw [List.mem_insertionSort, List.mem_dedup]
    simp only [List.mem_append, List.mem_map]
    constructor
    · rintro (((⟨r, hr, he⟩ | ⟨r, hr, he⟩) | ⟨e, hee, he⟩) | ⟨c, hcc, he⟩)
      · exact Or.inl ⟨r, hr, he⟩
      · exact Or.inr (Or.inl ⟨r, hr, he⟩)
      · exact Or.inr (Or.inr (Or.inl ⟨e, hee, he⟩))
      · exact Or.inr (Or.inr (Or.inr ⟨c, hcc, he⟩))
    · rintro (⟨r, hr, he⟩ | ⟨r, hr, he⟩ | ⟨e, hee, he⟩ | ⟨c, hcc, he⟩)
      · exact Or.inl (Or.inl (Or.inl ⟨r, hr, he⟩))
      · exact Or.inl (Or.inl (Or.inr ⟨r, hr, he⟩))
      · exact Or.inl (Or.inr ⟨e, hee, he⟩)
      · exact Or.inr ⟨c, hcc, he⟩
  · exact List.sorted_insertionSort strLe _
  · exact ((List.perm_insertionSort strLe _).nodup_iff).mpr (List.nodup_dedup _)
  all_goals exact outMap_keys ph tf _

/-! ## Claim C8 — missing/short timestamps -/

/-- A PR whose only event is a comment with a 4-character date: every
guarded consumer drops it, and processing continues. -/
def prShortEvDate : PRData :=
  { pull := { number := 3, author := "frank", created_at := "2021-03-01T00:00:00Z" }
    events := [{ etype := "commented", user := some "erin", created_at := some "2021" }] }

def phShortEvDate : Phase1 :=
  { allPRs := [AllRec.mk "2021-03-01T00:00:00Z" "frank" (Keys.mk "2021" "2021-Q1" "2021-03")] }

/-- A PR record whose own `created_at` has no date component. -/
def prShortCreated : PRData :=
  { pull := { number := 4, author := "gina", created_at := "2021" } }

/-- A PR whose merged event carries no `created_at` at all. -/
def prMergedNoDate : PRData :=
  { pull := { number := 5, author := "hank", created_at := "2021-03-01T00:00:00Z" }
    events := [{ etype := "merged" }] }

/-- C8 counterexample: a missing/short timestamp is **not** always skipped —
for the PR record's own `created_at` (line 232) and for the selected merged
event's `created_at` (line 254) there is no guard, and the run aborts with
an uncaught exception. -/
theorem short_timestamp_fatal_counterexample :
    prShortCreated.pull.created_at.length < 10 ∧
    processPR [] prShortCreated = .error "ValueError" ∧
    extractPhase1 [] [prShortCreated] [] = .error "ValueError" ∧
    processPR [] prMergedNoDate = .error "KeyError" := by
  refine ⟨by decide, by decide, by decide, by decide⟩

/-- C8 (amended): for comment/review extraction (timeline events and
standalone comments), the engagement scan, review-age collection and issue
records, a missing or short (< 10 characters) timestamp silently drops that
contribution — for all three period keys at once, since the period-key
triple is produced together — and processing continues (shown end-to-end on
`prShortEvDate`). The claim fails, however, for the PR record's own
`created_at` and the selected merge/close event's `created_at`, which are
unguarded and fatal (see the counterexample). -/
theorem short_timestamp_skips :
    (∀ (m : UserMap) (ev : Event), (commentDate ev).length < 10 →
      commentEvContrib m ev = .ok none) ∧
    (∀ (m : UserMap) (c : RawComment), (c.created_at.getD "").length < 10 →
      commentRcContrib m c = .ok none) ∧
    (∀ (m : UserMap) (author : String) (cdt : DT) (ev : Event),
      (ev.created_at.getD "").length < 10 → reviewAgeEvContrib m author cdt ev = .ok none) ∧
    (∀ (m : UserMap) (author : String) (cdt : DT) (c : RawComment),
      (c.created_at.getD "").length < 10 → reviewAgeRcContrib m author cdt c = .ok none) ∧
    (∀ (m : UserMap) (author : String) (ev : Event), (evDateStr ev).length < 10 →
      firstRespCandidate m author ev = none) ∧
    (∀ (m : UserMap) (iss : IssueData) out, (iss.created_at.getD "").length < 10 →
      processIssue m iss = .ok out → out.1 = []) ∧
    prShortEvDate.events.all (fun ev => (commentDate ev).length < 10) = true ∧
    extractPhase1 [] [prShortEvDate] [] = .ok phShortEvDate := by
  refine ⟨?_, ?_, ?_, ?_, ?_, ?_, by decide, by decide⟩
  · intro m ev h
    unfold commentEvContrib
    by_cases h1 : ¬(ev.etype = "commented" ∨ ev.etype = "reviewed")
    · rw [if_pos h1]
    · rw [if_neg h1]
      cases ev.user with
      | none => rfl
      | some u =>
        dsimp only
        by_cases h2 : mapUsername m u ∈ ignoreUsers
        · rw [if_pos h2]
        · rw [if_neg h2, if_pos h]
  · intro m c h
    unfold commentRcContrib
    cases c.user with
    | none => rfl
    | some u =>
      dsimp only
      by_cases h2 : mapUsername m u ∈ ignoreUsers
      · rw [if_pos h2]
      · rw [if_neg h2, if_pos h]
  · intro m author cdt ev h
    unfold reviewAgeEvContrib
    by_cases h1 : ¬(ev.etype = "reviewed" ∨ ev.etype = "commented")
    · rw [if_pos h1]
    · rw [if_neg h1]
      dsimp only
      by_cases h2 : ((match ev.user.map (mapUsername m) with
          | some u => decide (u ∈ ignoreUsers)
          | none => false) : Bool) ∨ ev.user.map (mapUsername m) = some author
      · rw [if_pos h2]
      · rw [if_neg h2, if_neg (by intro hc; omega)]
  · intro m author cdt c h
    unfold reviewAgeRcContrib
    dsimp only
    by_cases h2 : ((match c.user.map (mapUsername m) with
        | some u => decide (u ∈ ignoreUsers)
        | none => false) : Bool) ∨ c.user.map (mapUsername m) = some author
    · rw [if_pos h2]
    · rw [if_neg h2, if_neg (by intro hc; omega)]
  · intro m author ev h
    unfold firstRespCandidate
    by_cases h1 : ev.etype ∈ skipActivityEvents
    · rw [if_pos h1]
    · rw [if_neg h1]
      cases evUserOf m ev with
      | none => rfl
      | some l =>
        dsimp only
        by_cases h2 : l ∈ ignoreUsers
        · rw [if_pos h2]
        · rw [if_neg h2]
          by_cases h3 : l ≠ "" ∧ l ≠ author
          · rw [if_pos h3, if_neg (by intro hc; omega)]
          · rw [if_neg h3]
  · intro m iss out h hrun
    unfold processIssue at hrun
    rw [if_neg (by intro hc; omega)] at hrun
    simp only [bind, Except.bind, pure, Except.pure] at hrun
    cases hc : collectList (commentEvContrib m) iss.events with
    | error e => rw [hc] at hrun; cases hrun
    | ok cc =>
      rw [hc] at hrun
      cases hrun
      rfl

/-- C8 witness: the skip conclusions discharged at a concrete short-dated
comment event and a short-dated issue. -/
theorem short_timestamp_skips_witness :
    (commentDate (Event.mk "commented" (some "erin") none none (some "2021") none none)).length
      < 10 ∧
    commentEvContrib [] (Event.mk "commented" (some "erin") none none (some "2021") none none) =
      .ok none ∧
    ((IssueData.mk (some "2021") ["bug"] []).created_at.getD "").length < 10 ∧
    processIssue [] (IssueData.mk (some "2021") ["bug"] []) = .ok ([], []) ∧
    (([], []) : List (Keys × String) × List (Keys × String)).1 = [] := by
  refine ⟨by decide, short_timestamp_skips.1 [] _ (by decide), by decide, by decide, ?_⟩
  exact short_timestamp_skips.2.2.2.2.2.1 [] (IssueData.mk (some "2021") ["bug"] []) ([], [])
    (by decide) (by decide)

/-! ## Claim C4 — first response latency -/

theorem frts_foldl_none (m : UserMap) (author : String) (evs : List Event) (acc : Option String) :
    (evs.foldl (fun acc ev =>
      match firstRespCandidate m author ev with
      | none => acc
      | some d => match acc with
        | none => some d
        | some cur => if strLt d cur then some d else some cur) acc = none) ↔
    (acc = none ∧ evs.filterMap (firstRespCandidate m author) = []) := by
  induction evs generalizing acc with
  | nil => simp
  | cons ev evs ih =>
    cases hc : firstRespCandidate m author ev with
    | none =>
      simp only [List.foldl_cons, hc, List.filterMap_cons]
      exact ih acc
    | some d =>
      simp only [List.foldl_cons, hc, List.filterMap_cons]
      cases acc with
      | none =>
        rw [ih]
        simp
      | some cur =>
        have hred : (match (some cur : Option String) with
            | none => some d
            | some cur => if strLt d cur then some d else some cur) =
            if strLt d cur then some d else some cur := rfl
        rw [hred]
        by_cases hlt : strLt d cur
        · rw [if_pos hlt, ih]
          simp
        · rw [if_neg hlt, ih]
          simp

theorem frts_foldl_min (m : UserMap) (author : String) (evs : List Event) (acc : Option String)
    (t : String)
    (h : evs.foldl (fun acc ev =>
      match firstRespCandidate m author ev with
      | none => acc
      | some d => match acc with
        | none => some d
        | some cur => if strLt d cur then some d else some cur) acc = some t) :
    (t ∈ evs.filterMap (firstRespCandidate m author) ∨ acc = some t) ∧
    (∀ x ∈ evs.filterMap (firstRespCandidate m author), strLe t x) ∧
    (∀ c, acc = some c → strLe t c) := by
  induction evs generalizing acc with
  | nil =>
    simp only [List.foldl_nil] at h
    exact ⟨Or.inr h, by simp, fun c hc => by rw [h] at hc; cases hc; exact le_refl _⟩
  | cons ev evs ih =>
    cases hc : firstRespCandidate m author ev with
    | none =>
      simp only [List.foldl_cons, hc] at h
      obtain ⟨h1, h2, h3⟩ := ih acc h
      simp only [List.filterMap_cons, hc]
      exact ⟨h1, h2, h3⟩
    | some d =>
      simp only [List.foldl_cons, hc] at h
      simp only [List.filterMap_cons, hc]
      cases acc with
      | none =>
        obtain ⟨h1, h2, h3⟩ := ih (some d) h
        have htd : strLe t d := h3 d rfl
        constructor
        · rcases h1 with h1 | h1
          · exact Or.inl (List.mem_cons_of_mem _ h1)
          · cases h1
            exact Or.inl (List.mem_cons_self _ _)
        · refine ⟨fun x hx => ?_, fun c hcc => by cases hcc⟩
          rcases List.mem_cons.mp hx with hx | hx
          · subst hx
            exact htd
          · exact h2 x hx
      | some cur =>
        have hred : (match (some cur : Option String) with
            | none => some d
            | some cur => if strLt d cur then some d else some cur) =
            if strLt d cur then some d else some cur := rfl
        rw [hred] at h
        by_cases hlt : strLt d cur
        · rw [if_pos hlt] at h
          obtain ⟨h1, h2, h3⟩ := ih (some d) h
          have htd : strLe t d := h3 d rfl
          have hdc : strLe d cur := le_of_lt hlt
          constructor
          · rcases h1 with h1 | h1
            · exact Or.inl (List.mem_cons_of_mem _ h1)
            · cases h1
              exact Or.inl (List.mem_cons_self _ _)
          · refine ⟨fun x hx => ?_, fun c hcc => ?_⟩
            · rcases List.mem_cons.mp hx with hx | hx
              · subst hx
                exact htd
              · exact h2 x hx
            · cases hcc
              exact le_trans htd hdc
        · rw [if_neg hlt] at h
          obtain ⟨h1, h2, h3⟩ := ih (some cur) h
          have htc : strLe t cur := h3 cur rfl
          have hcd : strLe cur d := le_of_not_lt hlt
          constructor
          · rcases h1 with h1 | h1
            · exact Or.inl (List.mem_cons_of_mem _ h1)
            · exact Or.inr h1
          · refine ⟨fun x hx => ?_, fun c hcc => ?_⟩
            · rcases List.mem_cons.mp hx with hx | hx
              · subst hx
                exact le_trans htc hcd
              · exact h2 x hx
            · cases hcc
              exact htc


theorem firstResponseTs_spec (m : UserMap) (author : String) (evs : List Event) :
    (firstResponseTs m author evs = none ↔
      evs.filterMap (firstRespCandidate m author) = []) ∧
    (∀ t, firstResponseTs m author evs = some t →
      t ∈ evs.filterMap (firstRespCandidate m author) ∧
      ∀ x ∈ evs.filterMap (firstRespCandidate m author), strLe t x) := by
  constructor
  · rw [firstResponseTs, frts_foldl_none]
    simp
  · intro t h
    rw [firstResponseTs] at h
    obtain ⟨h1, h2, _⟩ := frts_foldl_min m author evs none t h
    rcases h1 with h1 | h1
    · exact ⟨h1, h2⟩
    · cases h1

theorem processPR_firstResponse (m : UserMap) (pr : PRData) (res : PRResult)
    (h : processPR m pr = .ok res) :
    ∃ v, firstResponseDaysE m (mapUsername m pr.pull.author) pr.pull.created_at pr.events =
      .ok v ∧ res.firstResponseDays = v := by
  unfold processPR at h
  simp only [bind, Except.bind, pure, Except.pure] at h
  cases h1 : collectList (commentEvContrib m) pr.events with
  | error e => rw [h1] at h; cases h
  | ok ec =>
    rw [h1] at h
    simp only [] at h
    cases h2 : collectList (commentRcContrib m) pr.comments with
    | error e => rw [h2] at h; cases h
    | ok rc =>
      rw [h2] at h
      simp only [] at h
      cases h3 : isoParse pr.pull.created_at with
      | none => rw [h3] at h; cases h
      | some cdt =>
        rw [h3] at h
        simp only [] at h
        cases h4 : outcomeRecs m (mapUsername m pr.pull.author) pr.pull.created_at cdt
            pr.pull.additions pr.pull.deletions pr.pull.commits pr.events with
        | error e => rw [h4] at h; cases h
        | ok triple =>
          rw [h4] at h
          simp only [] at h
          cases h5 : firstResponseDaysE m (mapUsername m pr.pull.author) pr.pull.created_at
              pr.events with
          | error e => rw [h5] at h; cases h
          | ok frd =>
            rw [h5] at h
            simp only [] at h
            cases h6 : collectList (reviewAgeEvContrib m (mapUsername m pr.pull.author) cdt)
                pr.events with
            | error e => rw [h6] at h; cases h
            | ok ae =>
              rw [h6] at h
              simp only [] at h
              cases h7 : collectList (reviewAgeRcContrib m (mapUsername m pr.pull.author) cdt)
                  pr.comments with
              | error e => rw [h7] at h; cases h
              | ok ar =>
                rw [h7] at h
                simp only [] at h
                cases h
                exact ⟨frd, rfl, rfl⟩


theorem daysBetween_eq_days (a b : DT) (k : ℤ)
    (h : (epochSecs b : ℤ) - (epochSecs a : ℤ) = 86400 * k) : daysBetween a b = (k : ℚ) := by
  unfold daysBetween
  have h2 : ((epochSecs b : ℚ) - (epochSecs a : ℚ)) =
      (((epochSecs b : ℤ) - (epochSecs a : ℤ) : ℤ) : ℚ) := by push_cast; ring
  rw [h2, h]
  push_cast
  ring

theorem firstResponseDaysE_spec (m : UserMap) (author cd : String) (evs : List Event) :
    (firstResponseDaysE m author cd evs = .ok none ↔
      evs.filterMap (firstRespCandidate m author) = []) ∧
    (∀ q, firstResponseDaysE m author cd evs = .ok (some q) →
      ∃ t, t ∈ evs.filterMap (firstRespCandidate m author) ∧
        (∀ x ∈ evs.filterMap (firstRespCandidate m author), strLe t x) ∧
        ∃ c r, isoParse cd = some c ∧ isoParse t = some r ∧
          q = round1 (daysBetween c r)) := by
  constructor
  · unfold firstResponseDaysE
    cases hf : firstResponseTs m author evs with
    | none =>
      simp only []
      constructor
      · intro _
        exact ((firstResponseTs_spec m author evs).1).mp hf
      · intro _
        trivial
    | some ts =>
      simp only []
      constructor
      · intro hq
        cases hc : isoParse cd with
        | none => rw [hc] at hq; cases hq
        | some c =>
          rw [hc] at hq
          cases hr : isoParse ts with
          | none => rw [hr] at hq; cases hq
          | some r => rw [hr] at hq; cases hq
      · intro hcands
        exact absurd hf (by rw [(firstResponseTs_spec m author evs).1.mpr hcands]; simp)
  · intro q hq
    unfold firstResponseDaysE at hq
    cases hf : firstResponseTs m author evs with
    | none => rw [hf] at hq; cases hq
    | some ts =>
      rw [hf] at hq
      simp only [] at hq
      cases hc : isoParse cd with
      | none => rw [hc] at hq; cases hq
      | some c =>
        rw [hc] at hq
        cases hr : isoParse ts with
        | none => rw [hr] at hq; cases hq
        | some r =>
          rw [hr] at hq
          simp only [Except.ok.injEq, Option.some.injEq] at hq
          obtain ⟨ht, hmin⟩ := (firstResponseTs_spec m author evs).2 ts hf
          exact ⟨ts, ht, hmin, c, r, rfl, hr, hq.symm⟩

def prEarlyCommit : PRData :=
  { pull := { number := 6, author := "bob", created_at := "2020-01-10T00:00:00Z" }
    events := [{ etype := "committed", commitAuthor := some "alice",
                 committerDate := some "2020-01-05T00:00:00Z" }] }

theorem first_response_counterexample :
    (∀ t ∈ prEarlyCommit.events.filterMap (firstRespCandidate [] "bob"),
      strLt t prEarlyCommit.pull.created_at) ∧
    prEarlyCommit.events.filterMap (firstRespCandidate [] "bob") ≠ [] ∧
    (∃ res, processPR [] prEarlyCommit = .ok res ∧
      res.firstResponseDays = some (-5 : ℚ)) ∧
    ((-5 : ℚ) < 0) := by
  refine ⟨by decide, by decide, ?_, by norm_num⟩
  have hok : (processPR [] prEarlyCommit).isOk = true := by decide
  cases hrun : processPR [] prEarlyCommit with
  | error e => rw [hrun] at hok; cases hok
  | ok res =>
    obtain ⟨v, hv, hres⟩ := processPR_firstResponse [] prEarlyCommit res hrun
    refine ⟨res, rfl, ?_⟩
    have hts : firstResponseTs [] (mapUsername [] prEarlyCommit.pull.author)
        prEarlyCommit.events = some "2020-01-05T00:00:00Z" := by decide
    have hc : isoParse prEarlyCommit.pull.created_at =
        some (DT.mk 2020 1 10 0 0 0) := by decide
    have hr : isoParse "2020-01-05T00:00:00Z" = some (DT.mk 2020 1 5 0 0 0) := by decide
    unfold firstResponseDaysE at hv
    rw [hts] at hv
    simp only [] at hv
    rw [hc] at hv
    rw [hr] at hv
    simp only [Except.ok.injEq] at hv
    rw [hres, ← hv]
    have hd : daysBetween (DT.mk 2020 1 10 0 0 0) (DT.mk 2020 1 5 0 0 0) = ((-5 : ℤ) : ℚ) :=
      daysBetween_eq_days _ _ (-5) (by decide)
    rw [hd, round1_intCast]
    norm_num

/-- C4 (amended): `first_response_days` is the elapsed days (timestamp
arithmetic, rounded to one decimal) between the PR's creation time and the
string-minimum timestamp among all qualifying non-author events — with
**no** requirement that this timestamp lie after creation (the value can be
negative); it is absent exactly when no qualifying non-author event exists. -/
theorem first_response_unfiltered_minimum :
    (∀ (m : UserMap) (author cd : String) (evs : List Event),
      (firstResponseDaysE m author cd evs = .ok none ↔
        evs.filterMap (firstRespCandidate m author) = []) ∧
      (∀ q, firstResponseDaysE m author cd evs = .ok (some q) →
        ∃ t, t ∈ evs.filterMap (firstRespCandidate m author) ∧
          (∀ x ∈ evs.filterMap (firstRespCandidate m author), strLe t x) ∧
          ∃ c r, isoParse cd = some c ∧ isoParse t = some r ∧
            q = round1 (daysBetween c r))) ∧
    (∀ (m : UserMap) (pr : PRData) (res : PRResult), processPR m pr = .ok res →
      ∃ v, firstResponseDaysE m (mapUsername m pr.pull.author) pr.pull.created_at pr.events =
        .ok v ∧ res.firstResponseDays = v) :=
  ⟨firstResponseDaysE_spec, processPR_firstResponse⟩

/-- The per-PR facts produced for `exSelfMergePR`. -/
def resSelfMerge : PRResult :=
  PRResult.mk [] (AllRec.mk "2021-01-01T00:00:00Z" "alice" exKeys2101) []
    (some (MergedRec.mk "2021-01-03T00:00:00Z" "2021-01-01T00:00:00Z" "alice" exKeys2101 10 0 1
      (epochSecs (DT.mk 2021 1 3 0 0 0)) (epochSecs (DT.mk 2021 1 1 0 0 0))))
    none (some (ActorRec.mk "2021-01-03T00:00:00Z" exKeys2101 "alice")) none []

/-- C4 witness: the conclusions of `first_response_unfiltered_minimum`
discharged at concrete inputs. -/
theorem first_response_unfiltered_minimum_witness :
    (∃ v, firstResponseDaysE [] (mapUsername [] exSelfMergePR.pull.author)
      exSelfMergePR.pull.created_at exSelfMergePR.events = .ok v ∧
      resSelfMerge.firstResponseDays = v) ∧
    firstResponseDaysE [] "bob" "2020-01-10T00:00:00Z" [] = .ok none :=
  ⟨first_response_unfiltered_minimum.2 [] exSelfMergePR resSelfMerge (by decide),
    (first_response_unfiltered_minimum.1 [] "bob" "2020-01-10T00:00:00Z" []).1.mpr (by decide)⟩

/-! ## Claim C6 — first-time authors -/

theorem authorFirstMergeAux_mem (l : List MergedRec) (acc : List FirstEntry) (a : String) :
    (∃ e ∈ authorFirstMergeAux l acc, e.author = a) ↔
    (∃ e ∈ acc, e.author = a) ∨ (∃ r ∈ l, r.author = a) := by
  induction l generalizing acc with
  | nil => simp [authorFirstMergeAux]
  | cons r rest ih =>
    unfold authorFirstMergeAux
    by_cases hin : acc.any (fun e => e.author = r.author)
    · rw [if_pos hin, ih]
      constructor
      · rintro (h | h)
        · exact Or.inl h
        · exact Or.inr (by obtain ⟨rr, hrr, hra⟩ := h; exact ⟨rr, List.mem_cons_of_mem _ hrr, hra⟩)
      · rintro (h | ⟨rr, hrr, hra⟩)
        · exact Or.inl h
        · rcases List.mem_cons.mp hrr with hrr | hrr
          · subst hrr
            obtain ⟨e, he, hea⟩ := List.any_eq_true.mp hin
            exact Or.inl ⟨e, he, by rw [of_decide_eq_true hea, hra]⟩
          · exact Or.inr ⟨rr, hrr, hra⟩
    · rw [if_neg hin, ih]
      constructor
      · rintro (⟨e, he, hea⟩ | ⟨rr, hrr, hra⟩)
        · rcases List.mem_append.mp he with he2 | he2
          · exact Or.inl ⟨e, he2, hea⟩
          · rcases List.mem_singleton.mp he2 with rfl
            exact Or.inr ⟨r, List.mem_cons_self _ _, hea⟩
        · exact Or.inr ⟨rr, List.mem_cons_of_mem _ hrr, hra⟩
      · rintro (⟨e, he, hea⟩ | ⟨rr, hrr, hra⟩)
        · exact Or.inl ⟨e, List.mem_append.mpr (Or.inl he), hea⟩
        · rcases List.mem_cons.mp hrr with hrr2 | hrr2
          · subst hrr2
            exact Or.inl ⟨FirstEntry.mk rr.author rr.merge_date rr.keys,
              List.mem_append.mpr (Or.inr (List.mem_singleton.mpr rfl)), hra⟩
          · exact Or.inr ⟨rr, hrr2, hra⟩

theorem authorFirstMergeAux_nodup (l : List MergedRec) (acc : List FirstEntry)
    (h : (acc.map (fun e => e.author)).Nodup) :
    ((authorFirstMergeAux l acc).map (fun e => e.author)).Nodup := by
  induction l generalizing acc with
  | nil => exact h
  | cons r rest ih =>
    unfold authorFirstMergeAux
    by_cases hin : acc.any (fun e => e.author = r.author)
    · rw [if_pos hin]
      exact ih acc h
    · rw [if_neg hin]
      refine ih _ ?_
      rw [List.map_append]
      simp only [List.map_cons, List.map_nil]
      rw [List.nodup_append]
      refine ⟨h, List.nodup_singleton _, ?_⟩
      intro x hx hx2
      rcases List.mem_singleton.mp hx2 with rfl
      obtain ⟨e, he, hea⟩ := List.mem_map.mp hx
      exact (List.any_eq_true.not.mp hin) ⟨e, he, by simp [hea]⟩

theorem authorFirstMergeAux_entry (l : List MergedRec) (acc : List FirstEntry)
    (hs : List.Sorted mergeDateLe l) :
    ∀ e ∈ authorFirstMergeAux l acc,
      e ∈ acc ∨ ((∀ e2 ∈ acc, e2.author ≠ e.author) ∧
        (∃ r ∈ l, e = FirstEntry.mk r.author r.merge_date r.keys) ∧
        (∀ r2 ∈ l, r2.author = e.author → strLe e.date r2.merge_date)) := by
  induction l generalizing acc with
  | nil =>
    intro e he
    exact Or.inl he
  | cons r rest ih =>
    intro e he
    rw [List.sorted_cons] at hs
    unfold authorFirstMergeAux at he
    by_cases hin : acc.any (fun e => e.author = r.author)
    · rw [if_pos hin] at he
      rcases ih acc hs.2 e he with h | ⟨hnot, ⟨rr, hrr, hre⟩, hmin⟩
      · exact Or.inl h
      · refine Or.inr ⟨hnot, ⟨rr, List.mem_cons_of_mem _ hrr, hre⟩, ?_⟩
        intro r2 hr2 hr2a
        rcases List.mem_cons.mp hr2 with hr2 | hr2
        · subst hr2
          obtain ⟨e2, he2, he2a⟩ := List.any_eq_true.mp hin
          exact absurd (by rw [of_decide_eq_true he2a, hr2a]) (hnot e2 he2)
        · exact hmin r2 hr2 hr2a
    · rw [if_neg hin] at he
      rcases ih _ hs.2 e he with h | ⟨hnot, ⟨rr, hrr, hre⟩, hmin⟩
      · rcases List.mem_append.mp h with h | h
        · exact Or.inl h
        · rcases List.mem_singleton.mp h with rfl
          refine Or.inr ⟨?_, ⟨r, List.mem_cons_self _ _, rfl⟩, ?_⟩
          · intro e2 he2 hea
            exact (List.any_eq_true.not.mp hin) ⟨e2, he2, by simp [hea]⟩
          · intro r2 hr2 hr2a
            rcases List.mem_cons.mp hr2 with hr2 | hr2
            · subst hr2
              exact le_refl _
            · exact hs.1 r2 hr2
      · refine Or.inr ⟨?_, ⟨rr, List.mem_cons_of_mem _ hrr, hre⟩, ?_⟩
        · intro e2 he2 hea
          exact hnot e2 (List.mem_append.mpr (Or.inl he2)) hea
        · intro r2 hr2 hr2a
          rcases List.mem_cons.mp hr2 with hr2 | hr2
          · subst hr2
            refine absurd ?_ (hnot (FirstEntry.mk r2.author r2.merge_date r2.keys)
              (List.mem_append.mpr (Or.inr (List.mem_singleton.mpr rfl))))
            exact hr2a
          · exact hmin r2 hr2 hr2a



theorem mem_firstTimeByPeriod (ph : Phase1) (tf : TF) (p a : String) :
    a ∈ firstTimeByPeriod ph tf p ↔
    ∃ e ∈ authorFirstMerge ph, e.author = a ∧ e.keys.get tf = p := by
  unfold firstTimeByPeriod
  rw [List.mem_toFinset]
  constructor
  · intro h
    obtain ⟨e, he, hea⟩ := List.mem_map.mp h
    obtain ⟨he2, hep⟩ := List.mem_filter.mp he
    exact ⟨e, he2, hea, of_decide_eq_true hep⟩
  · rintro ⟨e, he, hea, hep⟩
    exact List.mem_map.mpr ⟨e, List.mem_filter.mpr ⟨he, decide_eq_true hep⟩, hea⟩

/-- C6: every author with at least one merged PR belongs to
`first_time_authors` for exactly one period across the whole run — the
period of their global first merge date (their earliest merge date, by the
minimality conjunct) — and that period is in the output period list (so the
author is counted in `first_time_author_counts` there and nowhere else). -/
theorem first_time_author_unique_period (ph : Phase1) (tf : TF) (a : String)
    (h : ∃ r ∈ ph.mergedPRs, r.author = a) :
    ∃ e, e ∈ authorFirstMerge ph ∧ e.author = a ∧
      (∀ r ∈ ph.mergedPRs, r.author = a → strLe e.date r.merge_date) ∧
      a ∈ firstTimeByPeriod ph tf (e.keys.get tf) ∧
      (∀ p, a ∈ firstTimeByPeriod ph tf p → p = e.keys.get tf) ∧
      e.keys.get tf ∈ allPeriods ph tf := by
  have hperm := List.perm_insertionSort mergeDateLe ph.mergedPRs
  have hsorted : List.Sorted mergeDateLe (mergedSorted ph) :=
    List.sorted_insertionSort mergeDateLe ph.mergedPRs
  obtain ⟨r0, hr0, hr0a⟩ := h
  have hr0s : r0 ∈ mergedSorted ph := (hperm.mem_iff).mpr hr0
  have hmem : ∃ e ∈ authorFirstMerge ph, e.author = a := by
    rw [authorFirstMerge, authorFirstMergeAux_mem]
    exact Or.inr ⟨r0, hr0s, hr0a⟩
  obtain ⟨e, he, hea⟩ := hmem
  have hnodup : ((authorFirstMerge ph).map (fun e => e.author)).Nodup :=
    authorFirstMergeAux_nodup (mergedSorted ph) [] (by simp)
  have hmin : ∀ r ∈ ph.mergedPRs, r.author = a → strLe e.date r.merge_date := by
    rcases authorFirstMergeAux_entry (mergedSorted ph) [] hsorted e he with hacc | ⟨_, _, hmin⟩
    · cases hacc
    · intro r hr hra
      exact hmin r ((hperm.mem_iff).mpr hr) (by rw [hra, hea])
  refine ⟨e, he, hea, hmin, ?_, ?_, ?_⟩
  · exact (mem_firstTimeByPeriod ph tf _ a).mpr ⟨e, he, hea, rfl⟩
  · intro p hp
    obtain ⟨e2, he2, he2a, he2p⟩ := (mem_firstTimeByPeriod ph tf p a).mp hp
    have : e2 = e := List.inj_on_of_nodup_map hnodup he2 he (by rw [he2a, hea])
    rw [← he2p, this]
  · unfold allPeriods
    rw [List.mem_insertionSort, List.mem_dedup]
    refine List.mem_append.mpr (Or.inl (List.mem_append.mpr (Or.inr ?_)))
    unfold firstTimePeriodsList
    exact List.mem_map.mpr ⟨e, he, rfl⟩

/-- An author with merged PRs in two different months. -/
def phTwoMerges : Phase1 :=
  { mergedPRs :=
      [mkM "2021-01-05T00:00:00Z" "2021-01-02T00:00:00Z"
        (DT.mk 2021 1 5 0 0 0) (DT.mk 2021 1 2 0 0 0) "erin",
       mkM "2021-02-10T00:00:00Z" "2021-02-01T00:00:00Z"
        (DT.mk 2021 2 10 0 0 0) (DT.mk 2021 2 1 0 0 0) "erin"] }

/-- C6 witness: applied to an author who merges again in a later period —
she is a first-time author in 2021-01 only. -/
theorem first_time_author_unique_period_witness :
    (∃ r ∈ phTwoMerges.mergedPRs, r.author = "erin") ∧
    (∃ e, e ∈ authorFirstMerge phTwoMerges ∧ e.author = "erin" ∧
      (∀ r ∈ phTwoMerges.mergedPRs, r.author = "erin" → strLe e.date r.merge_date) ∧
      "erin" ∈ firstTimeByPeriod phTwoMerges TF.month (e.keys.get TF.month) ∧
      (∀ p, "erin" ∈ firstTimeByPeriod phTwoMerges TF.month p → p = e.keys.get TF.month) ∧
      e.keys.get TF.month ∈ allPeriods phTwoMerges TF.month) ∧
    "erin" ∈ firstTimeByPeriod phTwoMerges TF.month "2021-01" ∧
    "erin" ∉ firstTimeByPeriod phTwoMerges TF.month "2021-02" :=
  ⟨by decide, first_time_author_unique_period phTwoMerges TF.month "erin" (by decide),
    by decide, by decide⟩

end ExtractData
namespace ExtractData
theorem digitVal_le (c : Char) (v : ℕ) (h : digitVal c = some v) : v ≤ 9 := by
  unfold digitVal at h
  split_ifs at h <;> simp at h <;> omega

theorem num2_le (a b : Char) (x : ℕ) (h : num2 a b = some x) : x ≤ 99 := by
  unfold num2 at h
  split at h
  next va vb ha hb =>
    cases h
    have h1 := digitVal_le a va ha
    have h2 := digitVal_le b vb hb
    omega
  next => cases h

theorem num4_le (a b c d : Char) (x : ℕ) (h : num4 a b c d = some x) : x ≤ 9999 := by
  unfold num4 at h
  split at h
  next va vb ha hb =>
    cases h
    have h1 := num2_le a b va ha
    have h2 := num2_le c d vb hb
    omega
  next => cases h

theorem daysInMonth_le (y m : ℕ) : daysInMonth y m ≤ 31 := by
  unfold daysInMonth
  split_ifs <;> omega

set_option maxHeartbeats 1000000 in
theorem isoParse_bounds (s : String) (t : DT) (h : isoParse s = some t) :
    1 ≤ t.year ∧ t.year ≤ 9999 ∧ 1 ≤ t.month ∧ t.month ≤ 12 ∧ 1 ≤ t.day ∧ t.day ≤ 31 ∧
    t.hour ≤ 23 ∧ t.minute ≤ 59 ∧ t.second ≤ 59 := by
  unfold isoParse at h
  split at h
  case _ y1 y2 y3 y4 m1 m2 d1 d2 rest =>
    split at h
    case _ y mo d hy hmo hd =>
      split at h
      case isTrue hg =>
        obtain ⟨hg1, hg2, hg3, hg4, hg5⟩ := hg
        have hdm : d ≤ 31 := le_trans hg5 (daysInMonth_le y mo)
        have hy4 : y ≤ 9999 := num4_le _ _ _ _ y hy
        split at h
        · cases h
          exact ⟨hg1, hy4, hg2, hg3, hg4, hdm, Nat.zero_le _, Nat.zero_le _, Nat.zero_le _⟩
        · split at h
          case _ hms hhms =>
            split at h
            case isTrue ht =>
              cases h
              exact ⟨hg1, hy4, hg2, hg3, hg4, hdm, ht.1, ht.2.1, ht.2.2⟩
            case isFalse => cases h
          case _ => cases h
      case isFalse => cases h
    case _ => cases h
  case _ => cases h

theorem epochSecs_le (t : DT) (hy : t.year ≤ 9999) (hm : t.month ≤ 12) (hd : t.day ≤ 31)
    (hh : t.hour ≤ 23) (hmi : t.minute ≤ 59) (hs : t.second ≤ 59) :
    epochSecs t ≤ 315569951999 := by
  unfold epochSecs epochDays
  obtain ⟨y, mo, d, h, mi, se⟩ := t
  simp only at hy hm hd hh hmi hs ⊢
  by_cases hc : mo ≤ 2
  · simp only [if_pos hc]
    omega
  · simp only [if_neg hc]
    omega
/-- An age event whose two epoch-second fields come from successfully parsed
timestamps (the invariant maintained by ingestion). -/
def AgeEvParsed (e : AgeEv) : Prop :=
  ∃ s1 s2 c t, isoParse s1 = some c ∧ isoParse s2 = some t ∧
    e.evSecs = epochSecs t ∧ e.createdSecs = epochSecs c

theorem collectList_mem {α β : Type} (f : α → Except String (Option β)) (l : List α)
    (out : List β) (h : collectList f l = .ok out) :
    ∀ b ∈ out, ∃ a ∈ l, f a = .ok (some b) := by
  induction l generalizing out with
  | nil =>
    cases h
    intro b hb
    cases hb
  | cons a rest ih =>
    unfold collectList at h
    simp only [bind, Except.bind, pure, Except.pure] at h
    cases hf : f a with
    | error e => rw [hf] at h; cases h
    | ok c =>
      rw [hf] at h
      simp only [] at h
      cases hc : collectList f rest with
      | error e => rw [hc] at h; cases h
      | ok cs =>
        rw [hc] at h
        simp only [] at h
        cases c with
        | none =>
          cases h
          intro b hb
          obtain ⟨a2, ha2, hfa2⟩ := ih _ hc b hb
          exact ⟨a2, List.mem_cons_of_mem _ ha2, hfa2⟩
        | some b0 =>
          cases h
          intro b hb
          rcases List.mem_cons.mp hb with hb | hb
          · subst hb
            exact ⟨a, List.mem_cons_self _ _, hf⟩
          · obtain ⟨a2, ha2, hfa2⟩ := ih _ hc b hb
            exact ⟨a2, List.mem_cons_of_mem _ ha2, hfa2⟩

theorem reviewAgeEvContrib_some (m : UserMap) (author : String) (cdt : DT) (ev : Event)
    (e : AgeEv) (h : reviewAgeEvContrib m author cdt ev = .ok (some e)) :
    ∃ t, isoParse (ev.created_at.getD "") = some t ∧
      e.evSecs = epochSecs t ∧ e.createdSecs = epochSecs cdt := by
  unfold reviewAgeEvContrib at h
  simp only [] at h
  split at h
  · cases h
  · split at h
    · cases h
    · split at h
      · split at h
        · cases h
        next t hp =>
          cases h
          exact ⟨t, hp, rfl, rfl⟩
      · cases h

theorem reviewAgeRcContrib_some (m : UserMap) (author : String) (cdt : DT) (c : RawComment)
    (e : AgeEv) (h : reviewAgeRcContrib m author cdt c = .ok (some e)) :
    ∃ t, isoParse (c.created_at.getD "") = some t ∧
      e.evSecs = epochSecs t ∧ e.createdSecs = epochSecs cdt := by
  unfold reviewAgeRcContrib at h
  simp only [] at h
  split at h
  · cases h
  · split at h
    · split at h
      · cases h
      next t hp =>
        cases h
        exact ⟨t, hp, rfl, rfl⟩
    · cases h

theorem processPR_ageEvents (m : UserMap) (pr : PRData) (res : PRResult)
    (h : processPR m pr = .ok res) : ∀ e ∈ res.ageEvents, AgeEvParsed e := by
  unfold processPR at h
  simp only [bind, Except.bind, pure, Except.pure] at h
  cases h1 : collectList (commentEvContrib m) pr.events with
  | error e => rw [h1] at h; cases h
  | ok ec =>
    rw [h1] at h
    simp only [] at h
    cases h2 : collectList (commentRcContrib m) pr.comments with
    | error e => rw [h2] at h; cases h
    | ok rc =>
      rw [h2] at h
      simp only [] at h
      cases h3 : isoParse pr.pull.created_at with
      | none => rw [h3] at h; cases h
      | some cdt =>
        rw [h3] at h
        simp only [] at h
        cases h4 : outcomeRecs m (mapUsername m pr.pull.author) pr.pull.created_at cdt
            pr.pull.additions pr.pull.deletions pr.pull.commits pr.events with
        | error e => rw [h4] at h; cases h
        | ok triple =>
          rw [h4] at h
          simp only [] at h
          cases h5 : firstResponseDaysE m (mapUsername m pr.pull.author) pr.pull.created_at
              pr.events with
          | error e => rw [h5] at h; cases h
          | ok frd =>
            rw [h5] at h
            simp only [] at h
            cases h6 : collectList (reviewAgeEvContrib m (mapUsername m pr.pull.author) cdt)
                pr.events with
            | error e => rw [h6] at h; cases h
            | ok ae =>
              rw [h6] at h
              simp only [] at h
              cases h7 : collectList (reviewAgeRcContrib m (mapUsername m pr.pull.author) cdt)
                  pr.comments with
              | error e => rw [h7] at h; cases h
              | ok ar =>
                rw [h7] at h
                simp only [] at h
                cases h
                intro e he
                rcases List.mem_append.mp he with he | he
                · obtain ⟨ev, _, hev⟩ := collectList_mem _ _ _ h6 e he
                  obtain ⟨t, hpt, he1, he2⟩ := reviewAgeEvContrib_some _ _ _ _ _ hev
                  exact ⟨pr.pull.created_at, ev.created_at.getD "", cdt, t, h3, hpt, he1, he2⟩
                · obtain ⟨cc, _, hcc⟩ := collectList_mem _ _ _ h7 e he
                  obtain ⟨t, hpt, he1, he2⟩ := reviewAgeRcContrib_some _ _ _ _ _ hcc
                  exact ⟨pr.pull.created_at, cc.created_at.getD "", cdt, t, h3, hpt, he1, he2⟩

theorem extractPRs_ageEvents (m : UserMap) (prs : List PRData) (ph0 ph : Phase1)
    (h : extractPRs m prs ph0 = .ok ph) (h0 : ∀ e ∈ ph0.ageEvents, AgeEvParsed e) :
    ∀ e ∈ ph.ageEvents, AgeEvParsed e := by
  induction prs generalizing ph0 with
  | nil =>
    cases h
    exact h0
  | cons pr rest ih =>
    unfold extractPRs at h
    simp only [bind, Except.bind] at h
    cases hp : processPR m pr with
    | error e => rw [hp] at h; cases h
    | ok r =>
      rw [hp] at h
      simp only [] at h
      refine ih _ h ?_
      intro e he
      rcases List.mem_append.mp he with he | he
      · exact h0 e he
      · exact processPR_ageEvents m pr r hp e he

theorem extractIssues_ageEvents (m : UserMap) (issues : List IssueData) (ph0 ph : Phase1)
    (h : extractIssues m issues ph0 = .ok ph) : ph.ageEvents = ph0.ageEvents := by
  induction issues generalizing ph0 with
  | nil => cases h; rfl
  | cons iss rest ih =>
    unfold extractIssues at h
    simp only [bind, Except.bind] at h
    cases hp : processIssue m iss with
    | error e => rw [hp] at h; cases h
    | ok pair =>
      rw [hp] at h
      simp only [] at h
      exact (ih _ h).trans rfl

theorem extractPhase1_ageEvents (m : UserMap) (prs : List PRData) (issues : List IssueData)
    (ph : Phase1) (h : extractPhase1 m prs issues = .ok ph) :
    ∀ e ∈ ph.ageEvents, AgeEvParsed e := by
  unfold extractPhase1 at h
  simp only [bind, Except.bind] at h
  cases hp : extractPRs m prs {} with
  | error e => rw [hp] at h; cases h
  | ok ph1 =>
    rw [hp] at h
    simp only [] at h
    rw [extractIssues_ageEvents m issues ph1 ph h]
    exact extractPRs_ageEvents m prs {} ph1 hp (by intro e he; cases he)
theorem ageDaysOf_lt_bound (e : AgeEv) (h : e.evSecs ≤ 315569951999) :
    ageDaysOf e < 1000000000 := by
  unfold ageDaysOf
  rw [div_lt_iff₀ (by norm_num : (0:ℚ) < 86400)]
  have h1 : (e.evSecs : ℚ) ≤ 315569951999 := by exact_mod_cast h
  have h2 : (0:ℚ) ≤ (e.createdSecs : ℚ) := Nat.cast_nonneg _
  linarith

theorem bucketOf_neg (age : ℚ) (h : age < 0) : bucketOf age = none := by
  unfold bucketOf ageBuckets
  have n0 : ¬((0:ℚ) ≤ age ∧ age < 7) := fun hx => by linarith [hx.1]
  have n1 : ¬((7:ℚ) ≤ age ∧ age < 30) := fun hx => by linarith [hx.1]
  have n2 : ¬((30:ℚ) ≤ age ∧ age < 90) := fun hx => by linarith [hx.1]
  have n3 : ¬((90:ℚ) ≤ age ∧ age < 180) := fun hx => by linarith [hx.1]
  have n4 : ¬((180:ℚ) ≤ age ∧ age < 365) := fun hx => by linarith [hx.1]
  have n5 : ¬((365:ℚ) ≤ age ∧ age < 730) := fun hx => by linarith [hx.1]
  have n6 : ¬((730:ℚ) ≤ age ∧ age < 1000000000) := fun hx => by linarith [hx.1]
  simp only [List.findSome?_cons, List.findSome?_nil,
    if_neg n0, if_neg n1, if_neg n2, if_neg n3, if_neg n4, if_neg n5, if_neg n6]

theorem bucketOf_pos_spec (age : ℚ) (h0 : 0 ≤ age) (h1 : age < 1000000000) :
    ∃ lo hi label, (lo, hi, label) ∈ ageBuckets ∧ lo ≤ age ∧ age < hi ∧
      bucketOf age = some label ∧
      ∀ lo2 hi2 label2, (lo2, hi2, label2) ∈ ageBuckets → lo2 ≤ age → age < hi2 →
        label2 = label := by
  rcases lt_or_le age 7 with d0 | c1
  · refine ⟨0, 7, "<1w", List.mem_cons_self _ _, h0, d0, ?_, ?_⟩
    · show List.findSome? _ ageBuckets = _
      simp only [ageBuckets, List.findSome?_cons,
        if_pos (And.intro h0 d0)]
    · intro lo2 hi2 label2 hmem hlo2 hhi2
      simp only [ageBuckets, List.mem_cons, List.not_mem_nil, or_false] at hmem
      rcases hmem with hm0|hm1|hm2|hm3|hm4|hm5|hm6
      · cases hm0
        rfl
      · cases hm1
        exfalso
        linarith
      · cases hm2
        exfalso
        linarith
      · cases hm3
        exfalso
        linarith
      · cases hm4
        exfalso
        linarith
      · cases hm5
        exfalso
        linarith
      · cases hm6
        exfalso
        linarith
  rcases lt_or_le age 30 with d1 | c2
  · refine ⟨7, 30, "1-4w", List.mem_cons_of_mem _ (List.mem_cons_self _ _), c1, d1, ?_, ?_⟩
    · show List.findSome? _ ageBuckets = _
      have n0 : ¬((0:ℚ) ≤ age ∧ age < 7) := fun hx => by linarith [hx.2]
      simp only [ageBuckets, List.findSome?_cons,
        if_neg n0, if_pos (And.intro c1 d1)]
    · intro lo2 hi2 label2 hmem hlo2 hhi2
      simp only [ageBuckets, List.mem_cons, List.not_mem_nil, or_false] at hmem
      rcases hmem with hm0|hm1|hm2|hm3|hm4|hm5|hm6
      · cases hm0
        exfalso
        linarith
      · cases hm1
        rfl
      · cases hm2
        exfalso
        linarith
      · cases hm3
        exfalso
        linarith
      · cases hm4
        exfalso
        linarith
      · cases hm5
        exfalso
        linarith
      · cases hm6
        exfalso
        linarith
  rcases lt_or_le age 90 with d2 | c3
  · refine ⟨30, 90, "1-3m", List.mem_cons_of_mem _ (List.mem_cons_of_mem _ (List.mem_cons_self _ _)), c2, d2, ?_, ?_⟩
    · show List.findSome? _ ageBuckets = _
      have n0 : ¬((0:ℚ) ≤ age ∧ age < 7) := fun hx => by linarith [hx.2]
      have n1 : ¬((7:ℚ) ≤ age ∧ age < 30) := fun hx => by linarith [hx.2]
      simp only [ageBuckets, List.findSome?_cons,
        if_neg n0, if_neg n1, if_pos (And.intro c2 d2)]
    · intro lo2 hi2 label2 hmem hlo2 hhi2
      simp only [ageBuckets, List.mem_cons, List.not_mem_nil, or_false] at hmem
      rcases hmem with hm0|hm1|hm2|hm3|hm4|hm5|hm6
      · cases hm0
        exfalso
        linarith
      · cases hm1
        exfalso
        linarith
      · cases hm2
        rfl
      · cases hm3
        exfalso
        linarith
      · cases hm4
        exfalso
        linarith
      · cases hm5
        exfalso
        linarith
      · cases hm6
        exfalso
        linarith
  rcases lt_or_le age 180 with d3 | c4
  · refine ⟨90, 180, "3-6m", List.mem_cons_of_mem _ (List.mem_cons_of_mem _ (List.mem_cons_of_mem _ (List.mem_cons_self _ _))), c3, d3, ?_, ?_⟩
    · show List.findSome? _ ageBuckets = _
      have n0 : ¬((0:ℚ) ≤ age ∧ age < 7) := fun hx => by linarith [hx.2]
      have n1 : ¬((7:ℚ) ≤ age ∧ age < 30) := fun hx => by linarith [hx.2]
      have n2 : ¬((30:ℚ) ≤ age ∧ age < 90) := fun hx => by linarith [hx.2]
      simp only [ageBuckets, List.findSome?_cons,
        if_neg n0, if_neg n1, if_neg n2, if_pos (And.intro c3 d3)]
    · intro lo2 hi2 label2 hmem hlo2 hhi2
      simp only [ageBuckets, List.mem_cons, List.not_mem_nil, or_false] at hmem
      rcases hmem with hm0|hm1|hm2|hm3|hm4|hm5|hm6
      · cases hm0
        exfalso
        linarith
      · cases hm1
        exfalso
        linarith
      · cases hm2
        exfalso
        linarith
      · cases hm3
        rfl
      · cases hm4
        exfalso
        linarith
      · cases hm5
        exfalso
        linarith
      · cases hm6
        exfalso
        linarith
  rcases lt_or_le age 365 with d4 | c5
  · refine ⟨180, 365, "6-12m", List.mem_cons_of_mem _ (List.mem_cons_of_mem _ (List.mem_cons_of_mem _ (List.mem_cons_of_mem _ (List.mem_cons_self _ _)))), c4, d4, ?_, ?_⟩
    · show List.findSome? _ ageBuckets = _
      have n0 : ¬((0:ℚ) ≤ age ∧ age < 7) := fun hx => by linarith [hx.2]
      have n1 : ¬((7:ℚ) ≤ age ∧ age < 30) := fun hx => by linarith [hx.2]
      have n2 : ¬((30:ℚ) ≤ age ∧ age < 90) := fun hx => by linarith [hx.2]
      have n3 : ¬((90:ℚ) ≤ age ∧ age < 180) := fun hx => by linarith [hx.2]
      simp only [ageBuckets, List.findSome?_cons,
        if_neg n0, if_neg n1, if_neg n2, if_neg n3, if_pos (And.intro c4 d4)]
    · intro lo2 hi2 label2 hmem hlo2 hhi2
      simp only [ageBuckets, List.mem_cons, List.not_mem_nil, or_false] at hmem
      rcases hmem with hm0|hm1|hm2|hm3|hm4|hm5|hm6
      · cases hm0
        exfalso
        linarith
      · cases hm1
        exfalso
        linarith
      · cases hm2
        exfalso
        linarith
      · cases hm3
        exfalso
        linarith
      · cases hm4
        rfl
      · cases hm5
        exfalso
        linarith
      · cases hm6
        exfalso
        linarith
  rcases lt_or_le age 730 with d5 | c6
  · refine ⟨365, 730, "1-2y", List.mem_cons_of_mem _ (List.mem_cons_of_mem _ (List.mem_cons_of_mem _ (List.mem_cons_of_mem _ (List.mem_cons_of_mem _ (List.mem_cons_self _ _))))), c5, d5, ?_, ?_⟩
    · show List.findSome? _ ageBuckets = _
      have n0 : ¬((0:ℚ) ≤ age ∧ age < 7) := fun hx => by linarith [hx.2]
      have n1 : ¬((7:ℚ) ≤ age ∧ age < 30) := fun hx => by linarith [hx.2]
      have n2 : ¬((30:ℚ) ≤ age ∧ age < 90) := fun hx => by linarith [hx.2]
      have n3 : ¬((90:ℚ) ≤ age ∧ age < 180) := fun hx => by linarith [hx.2]
      have n4 : ¬((180:ℚ) ≤ age ∧ age < 365) := fun hx => by linarith [hx.2]
      simp only [ageBuckets, List.findSome?_cons,
        if_neg n0, if_neg n1, if_neg n2, if_neg n3, if_neg n4, if_pos (And.intro c5 d5)]
    · intro lo2 hi2 label2 hmem hlo2 hhi2
      simp only [ageBuckets, List.mem_cons, List.not_mem_nil, or_false] at hmem
      rcases hmem with hm0|hm1|hm2|hm3|hm4|hm5|hm6
      · cases hm0
        exfalso
        linarith
      · cases hm1
        exfalso
        linarith
      · cases hm2
        exfalso
        linarith
      · cases hm3
        exfalso
        linarith
      · cases hm4
        exfalso
        linarith
      · cases hm5
        rfl
      · cases hm6
        exfalso
        linarith
  refine ⟨730, 1000000000, "2y+", List.mem_cons_of_mem _ (List.mem_cons_of_mem _ (List.mem_cons_of_mem _ (List.mem_cons_of_mem _ (List.mem_cons_of_mem _ (List.mem_cons_of_mem _ (List.mem_cons_self _ _)))))), c6, h1, ?_, ?_⟩
  · show List.findSome? _ ageBuckets = _
    have n0 : ¬((0:ℚ) ≤ age ∧ age < 7) := fun hx => by linarith [hx.2]
    have n1 : ¬((7:ℚ) ≤ age ∧ age < 30) := fun hx => by linarith [hx.2]
    have n2 : ¬((30:ℚ) ≤ age ∧ age < 90) := fun hx => by linarith [hx.2]
    have n3 : ¬((90:ℚ) ≤ age ∧ age < 180) := fun hx => by linarith [hx.2]
    have n4 : ¬((180:ℚ) ≤ age ∧ age < 365) := fun hx => by linarith [hx.2]
    have n5 : ¬((365:ℚ) ≤ age ∧ age < 730) := fun hx => by linarith [hx.2]
    simp only [ageBuckets, List.findSome?_cons,
      if_neg n0, if_neg n1, if_neg n2, if_neg n3, if_neg n4, if_neg n5, if_pos (And.intro c6 h1)]
  · intro lo2 hi2 label2 hmem hlo2 hhi2
    simp only [ageBuckets, List.mem_cons, List.not_mem_nil, or_false] at hmem
    rcases hmem with hm0|hm1|hm2|hm3|hm4|hm5|hm6
    · cases hm0
      exfalso
      linarith
    · cases hm1
      exfalso
      linarith
    · cases hm2
      exfalso
      linarith
    · cases hm3
      exfalso
      linarith
    · cases hm4
      exfalso
      linarith
    · cases hm5
      exfalso
      linarith
    · cases hm6
      rfl

/-- C10: every review/comment age event produced by extraction with a non-negative
elapsed-days value since PR creation falls in exactly one of the seven half-open age
buckets (the first matching range), and is counted (count at least 1) in
review_by_pr_age for its period under every timeframe; an event with negative elapsed
days matches no bucket and contributes to no period's review_by_pr_age. -/
theorem review_age_buckets (mm : UserMap) (prs : List PRData) (iss : List IssueData)
    (ph : Phase1) (h : extractPhase1 mm prs iss = .ok ph) :
    ∀ e ∈ ph.ageEvents,
      (0 ≤ ageDaysOf e →
        ∃ lo hi label, (lo, hi, label) ∈ ageBuckets ∧ lo ≤ ageDaysOf e ∧ ageDaysOf e < hi ∧
          bucketOf (ageDaysOf e) = some label ∧
          (∀ lo2 hi2 label2, (lo2, hi2, label2) ∈ ageBuckets → lo2 ≤ ageDaysOf e →
            ageDaysOf e < hi2 → label2 = label) ∧
          (∀ tf, 1 ≤ reviewByPrAge ph tf (e.keys.get tf) label)) ∧
      (ageDaysOf e < 0 →
        bucketOf (ageDaysOf e) = none ∧
        ∀ tf p label, ¬(e.keys.get tf = p ∧ bucketOf (ageDaysOf e) = some label)) := by
  intro e he
  constructor
  · intro hpos
    obtain ⟨s1, s2, c, t, hc, ht, he1, he2⟩ := extractPhase1_ageEvents mm prs iss ph h e he
    obtain ⟨hy1, hy2, hm1, hm2, hd1, hd2, hhh, hmi, hss⟩ := isoParse_bounds s2 t ht
    have hsec : e.evSecs ≤ 315569951999 := by
      rw [he1]
      exact epochSecs_le t hy2 hm2 hd2 hhh hmi hss
    have hlt := ageDaysOf_lt_bound e hsec
    obtain ⟨lo, hi, label, hmem, hlo, hhi, hbk, huniq⟩ := bucketOf_pos_spec _ hpos hlt
    refine ⟨lo, hi, label, hmem, hlo, hhi, hbk, huniq, ?_⟩
    intro tf
    have hcp : 0 < reviewByPrAge ph tf (e.keys.get tf) label := by
      unfold reviewByPrAge
      exact List.countP_pos_iff.mpr ⟨e, he, decide_eq_true ⟨rfl, hbk⟩⟩
    omega
  · intro hneg
    refine ⟨bucketOf_neg _ hneg, ?_⟩
    intro tf p label hcon
    rw [bucketOf_neg _ hneg] at hcon
    cases hcon.2

/-- A PR reviewed by a non-author at the moment of its creation. -/
def prReviewAtCreation : PRData :=
  { pull := { number := 7, author := "bob", created_at := "2021-05-01T00:00:00Z" }
    events := [{ etype := "reviewed", user := some "alice",
                 created_at := some "2021-05-01T00:00:00Z" }] }

def keys2105 : Keys := Keys.mk "2021" "2021-Q2" "2021-05"

def ageEvEx : AgeEv :=
  AgeEv.mk "2021-05-01T00:00:00Z" (epochSecs (DT.mk 2021 5 1 0 0 0))
    (epochSecs (DT.mk 2021 5 1 0 0 0)) keys2105

def phReviewAtCreation : Phase1 :=
  { allPRs := [AllRec.mk "2021-05-01T00:00:00Z" "bob" keys2105]
    commentContribs := [(keys2105, "alice")]
    ageEvents := [ageEvEx]
    reviewsReceived := [(keys2105, "bob")] }

theorem review_age_buckets_witness :
    extractPhase1 [] [prReviewAtCreation] [] = .ok phReviewAtCreation ∧
    ageEvEx ∈ phReviewAtCreation.ageEvents ∧
    0 ≤ ageDaysOf ageEvEx ∧
    (∃ lo hi label, (lo, hi, label) ∈ ageBuckets ∧ lo ≤ ageDaysOf ageEvEx ∧
      ageDaysOf ageEvEx < hi ∧ bucketOf (ageDaysOf ageEvEx) = some label ∧
      (∀ lo2 hi2 label2, (lo2, hi2, label2) ∈ ageBuckets → lo2 ≤ ageDaysOf ageEvEx →
        ageDaysOf ageEvEx < hi2 → label2 = label) ∧
      (∀ tf, 1 ≤ reviewByPrAge phReviewAtCreation tf (ageEvEx.keys.get tf) label)) := by
  refine ⟨by decide, by decide, by simp [ageDaysOf, ageEvEx], ?_⟩
  exact (review_age_buckets [] [prReviewAtCreation] [] phReviewAtCreation (by decide)
    ageEvEx (by decide)).1 (by simp [ageDaysOf, ageEvEx])

end ExtractData
namespace ExtractData
/-- The walk-order chain condition: following `lookupU` from each element of
`l` reaches the next element (or `tgt` after the last). -/
def walkChain (m : UserMap) : List String → String → Prop
  | [], _ => True
  | a :: rest, tgt => lookupU m a = some (rest.headD tgt) ∧ walkChain m rest tgt

theorem headD_append (l1 l2 : List String) (t : String) :
    (l1 ++ l2).headD t = l1.headD (l2.headD t) := by
  cases l1 with
  | nil => rfl
  | cons a l => rfl

theorem walkChain_append (m : UserMap) (l1 l2 : List String) (t : String)
    (h1 : walkChain m l1 (l2.headD t)) (h2 : walkChain m l2 t) :
    walkChain m (l1 ++ l2) t := by
  induction l1 with
  | nil => exact h2
  | cons a l ih =>
    refine ⟨?_, ih h1.2⟩
    rw [List.append_eq, headD_append]
    exact h1.1

theorem walkChain_suffix (m : UserMap) (l1 l2 : List String) (t : String)
    (h : walkChain m (l1 ++ l2) t) : walkChain m l2 t := by
  induction l1 with
  | nil => exact h
  | cons a l ih => exact ih h.2

theorem lookupU_some_mem (m : UserMap) (k v : String) (h : lookupU m k = some v) :
    k ∈ m.map Prod.fst := by
  induction m with
  | nil => cases h
  | cons p rest ih =>
    unfold lookupU at h
    by_cases hk : k = p.1
    · exact List.mem_cons.mpr (Or.inl hk)
    · rw [if_neg hk] at h
      exact List.mem_cons.mpr (Or.inr (ih h))

theorem nodup_sub_length (keys : List String) (seen : List String) (hn : seen.Nodup)
    (hs : ∀ x ∈ seen, x ∈ keys) : seen.length ≤ keys.toFinset.card := by
  rw [← List.toFinset_card_of_nodup hn]
  refine Finset.card_le_card ?_
  intro x hx
  rw [List.mem_toFinset] at hx ⊢
  exact hs x hx

/-- A value at which the chain walk is stuck or returns to itself along a
duplicate-free cycle of length at most `m.length`. -/
def goodResult (m : UserMap) (r : String) : Prop :=
  lookupU m r = none ∨
    ∃ E : List String, E.head? = some r ∧ E.Nodup ∧ E.length ≤ m.length ∧ walkChain m E r

theorem resolveGo_good (m : UserMap) : ∀ (fuel : ℕ) (seen : List String) (cur : String),
    seen.Nodup → (∀ x ∈ seen, x ∈ m.map Prod.fst) → walkChain m seen.reverse cur →
    (m.map Prod.fst).toFinset.card + 1 ≤ seen.length + fuel →
    goodResult m (resolveGo m fuel seen cur) := by
  intro fuel
  induction fuel with
  | zero =>
    intro seen cur hn hs hw hm
    have hl := nodup_sub_length (m.map Prod.fst) seen hn hs
    omega
  | succ f ih =>
    intro seen cur hn hs hw hm
    show goodResult m (resolveGo m (f + 1) seen cur)
    unfold resolveGo
    cases hl : lookupU m cur with
    | none =>
      simp only []
      exact Or.inl hl
    | some nxt =>
      simp only []
      by_cases hc : cur ∈ seen
      · rw [if_pos hc]
        have hcr : cur ∈ seen.reverse := List.mem_reverse.mpr hc
        obtain ⟨P, S, hPS⟩ := List.append_of_mem hcr
        rw [hPS] at hw
        have hwc : walkChain m (cur :: S) cur := walkChain_suffix m P (cur :: S) cur hw
        have hsub : (cur :: S).Sublist seen.reverse := by
          rw [hPS]
          exact (List.suffix_append P (cur :: S)).sublist
        have hnr : seen.reverse.Nodup := List.nodup_reverse.mpr hn
        have hnd : (cur :: S).Nodup := hsub.nodup hnr
        have hlen : (cur :: S).length ≤ seen.length := by
          have := hsub.length_le
          rwa [List.length_reverse] at this
        have hlen2 : seen.length ≤ m.length := by
          have h1 := nodup_sub_length (m.map Prod.fst) seen hn hs
          have h2 := List.toFinset_card_le (m.map Prod.fst)
          rw [List.length_map] at h2
          omega
        exact Or.inr ⟨cur :: S, rfl, hnd, le_trans hlen hlen2, hwc⟩
      · rw [if_neg hc]
        refine ih (cur :: seen) nxt (List.nodup_cons.mpr ⟨hc, hn⟩) ?_ ?_ ?_
        · intro x hx
          rcases List.mem_cons.mp hx with hx | hx
          · subst hx
            exact lookupU_some_mem m x nxt hl
          · exact hs x hx
        · rw [List.reverse_cons]
          refine walkChain_append m seen.reverse [cur] nxt ?_ ?_
          · exact hw
          · exact ⟨hl, trivial⟩
        · simp only [List.length_cons]
          omega

theorem walk_returns (m : UserMap) : ∀ (E : List String) (seen : List String) (r : String)
    (fuel : ℕ), walkChain m E r → E.Nodup → (∀ x ∈ E, x ∉ seen) →
    (r ∈ E ∨ r ∈ seen) → E.length + 1 ≤ fuel →
    resolveGo m fuel seen (E.headD r) = r := by
  intro E
  induction E with
  | nil =>
    intro seen r fuel hw hn hd hr hf
    have hrs : r ∈ seen := by
      rcases hr with hr | hr
      · cases hr
      · exact hr
    obtain ⟨f, rfl⟩ : ∃ f, fuel = f + 1 := ⟨fuel - 1, by omega⟩
    show resolveGo m (f + 1) seen r = r
    unfold resolveGo
    cases hl : lookupU m r with
    | none => rfl
    | some nxt =>
      simp only []
      rw [if_pos hrs]
  | cons a E ih =>
    intro seen r fuel hw hn hd hr hf
    obtain ⟨f, rfl⟩ : ∃ f, fuel = f + 1 := ⟨fuel - 1, by omega⟩
    show resolveGo m (f + 1) seen a = r
    unfold resolveGo
    rw [hw.1]
    simp only []
    rw [if_neg (hd a (List.mem_cons_self a E))]
    refine ih (a :: seen) r f hw.2 (List.nodup_cons.mp hn).2 ?_ ?_ ?_
    · intro x hx
      rw [List.mem_cons]
      push_neg
      exact ⟨fun he => (List.nodup_cons.mp hn).1 (he ▸ hx),
        hd x (List.mem_cons_of_mem a hx)⟩
    · rcases hr with hr | hr
      · rcases List.mem_cons.mp hr with hr | hr
        · exact Or.inr (List.mem_cons.mpr (Or.inl hr))
        · exact Or.inl hr
      · exact Or.inr (List.mem_cons.mpr (Or.inr hr))
    · simp only [List.length_cons] at hf
      omega

theorem goodResult_fixed (m : UserMap) (r : String) (h : goodResult m r) :
    mapUsername m r = r := by
  rcases h with h | ⟨E, hh, hn, hlen, hw⟩
  · show resolveGo m (m.length + 1) [] r = r
    unfold resolveGo
    rw [h]
  · cases E with
    | nil => cases hh
    | cons a E2 =>
      have ha : a = r := by
        simpa using hh
      subst ha
      have := walk_returns m (a :: E2) [] a (m.length + 1) hw hn
        (by intro x hx hc; cases hc) (Or.inl (List.mem_cons_self a E2))
        (by simp only [List.length_cons] at hlen ⊢; omega)
      simpa using this

theorem resolveGo_fuel_irrel (m : UserMap) : ∀ (fuel1 fuel2 : ℕ) (seen : List String)
    (cur : String), seen.Nodup → (∀ x ∈ seen, x ∈ m.map Prod.fst) →
    (m.map Prod.fst).toFinset.card + 1 ≤ seen.length + fuel1 →
    (m.map Prod.fst).toFinset.card + 1 ≤ seen.length + fuel2 →
    resolveGo m fuel1 seen cur = resolveGo m fuel2 seen cur := by
  intro fuel1
  induction fuel1 with
  | zero =>
    intro fuel2 seen cur hn hs h1 h2
    have hl := nodup_sub_length (m.map Prod.fst) seen hn hs
    omega
  | succ f ih =>
    intro fuel2 seen cur hn hs h1 h2
    have hl := nodup_sub_length (m.map Prod.fst) seen hn hs
    obtain ⟨g, rfl⟩ : ∃ g, fuel2 = g + 1 := ⟨fuel2 - 1, by omega⟩
    show resolveGo m (f + 1) seen cur = resolveGo m (g + 1) seen cur
    unfold resolveGo
    cases hlk : lookupU m cur with
    | none => rfl
    | some nxt =>
      simp only []
      by_cases hc : cur ∈ seen
      · rw [if_pos hc, if_pos hc]
      · rw [if_neg hc, if_neg hc]
        refine ih g (cur :: seen) nxt (List.nodup_cons.mpr ⟨hc, hn⟩) ?_ ?_ ?_
        · intro x hx
          rcases List.mem_cons.mp hx with hx | hx
          · subst hx
            exact lookupU_some_mem m x nxt hlk
          · exact hs x hx
        · simp only [List.length_cons]
          omega
        · simp only [List.length_cons]
          omega

/-- C5: `map_username` is idempotent — resolving an already-resolved handle
returns it unchanged, for every mapping, cycles included — and the
chain-following loop is settled after at most `|mapping| + 1` iterations:
every fuel of at least `m.length + 1` produces the same result as
`mapUsername` itself. -/
theorem resolve_idempotent_and_bounded (m : UserMap) (h : String) :
    mapUsername m (mapUsername m h) = mapUsername m h ∧
    ∀ fuel, m.length + 1 ≤ fuel → resolveGo m fuel [] h = mapUsername m h := by
  constructor
  · refine goodResult_fixed m (mapUsername m h) ?_
    refine resolveGo_good m (m.length + 1) [] h List.nodup_nil ?_ trivial ?_
    · intro x hx
      cases hx
    · have h2 := List.toFinset_card_le (m.map Prod.fst)
      rw [List.length_map] at h2
      simp only [List.length_nil]
      omega
  · intro fuel hfuel
    refine resolveGo_fuel_irrel m fuel (m.length + 1) [] h List.nodup_nil ?_ ?_ ?_
    · intro x hx
      cases hx
    · have h2 := List.toFinset_card_le (m.map Prod.fst)
      rw [List.length_map] at h2
      simp only [List.length_nil]
      omega
    · have h2 := List.toFinset_card_le (m.map Prod.fst)
      rw [List.length_map] at h2
      simp only [List.length_nil]
      omega

theorem resolve_idempotent_and_bounded_witness :
    mapUsername [("a", "b"), ("b", "a")] (mapUsername [("a", "b"), ("b", "a")] "a")
      = mapUsername [("a", "b"), ("b", "a")] "a" ∧
    2 + 1 ≤ 7 ∧
    resolveGo [("a", "b"), ("b", "a")] 7 [] "a"
      = mapUsername [("a", "b"), ("b", "a")] "a" :=
  ⟨(resolve_idempotent_and_bounded [("a", "b"), ("b", "a")] "a").1, by decide,
   (resolve_idempotent_and_bounded [("a", "b"), ("b", "a")] "a").2 7 (by decide)⟩
end ExtractData
